import Mathlib

/-!
Verification of the apn_storage repository core: the sync diff algorithm
(apn_storage/sync.py), the filesystem walk (apn_storage/utils.py), the
read-through cache (apn_storage/wrapfs/cachefs.py) and the layered
filesystem (apn_storage/multifs.py), shallowly embedded in Lean.
Paths are Python strings compared lexicographically, modelled as String
with its lexicographic order.
-/

/-- WalkNode from apn_storage/utils.py: a namedtuple (path, isdir, size). -/
structure WalkNode where
  path : String
  isdir : Bool
  size : Nat
deriving DecidableEq, Repr

/-- A sync action, the (action_func, path) pairs produced by
_get_sync_actions in apn_storage/sync.py: the action_func is one of
upload_file, delete_file, skip_file. -/
inductive SyncAction where
  | upload (path : String)
  | delete (path : String)
  | skip (path : String)
deriving DecidableEq, Repr

/-- The path component of an action tuple. -/
def SyncAction.path : SyncAction → String
  | .upload p => p
  | .delete p => p
  | .skip p => p

/-- Whether the action tuple holds delete_file, as tested by the
`action[0] is not delete_file` filter in sync_files. -/
def SyncAction.isDelete : SyncAction → Bool
  | .delete _ => true
  | _ => false

/-- The function _get_sync_actions from apn_storage/sync.py, lines 91-147: the two-pointer
merge over the two WalkNode sequences.  The generator is modelled as a
function from the two (finite) sequences to the emitted action list; the
`raise ValueError` in the final else branch is modelled as Except.error. -/
def _get_sync_actions : List WalkNode → List WalkNode → Except String (List SyncAction)
  | [], [] => Except.ok []
  | [], tfile :: ts =>
    (_get_sync_actions [] ts).map (fun rest => SyncAction.delete tfile.path :: rest)
  | sfile :: ss, [] =>
    (_get_sync_actions ss []).map (fun rest => SyncAction.upload sfile.path :: rest)
  | sfile :: ss, tfile :: ts =>
    if sfile.path = tfile.path then
      (_get_sync_actions ss ts).map (fun rest =>
        (if sfile.size = tfile.size then SyncAction.skip sfile.path
         else SyncAction.upload sfile.path) :: rest)
    else if sfile.path > tfile.path then
      (_get_sync_actions (sfile :: ss) ts).map (fun rest => SyncAction.delete tfile.path :: rest)
    else if tfile.path > sfile.path then
      (_get_sync_actions ss (tfile :: ts)).map (fun rest => SyncAction.upload sfile.path :: rest)
    else
      Except.error "This should be logically impossible."
termination_by s t => s.length + t.length

/-- The same merge, as a total function: identical to _get_sync_actions
except that the logically unreachable else branch is dropped (its
unreachability is proved below).  Used to state properties of the
produced action list. -/
def get_sync_actions_total : List WalkNode → List WalkNode → List SyncAction
  | [], [] => []
  | [], tfile :: ts => SyncAction.delete tfile.path :: get_sync_actions_total [] ts
  | sfile :: ss, [] => SyncAction.upload sfile.path :: get_sync_actions_total ss []
  | sfile :: ss, tfile :: ts =>
    if sfile.path = tfile.path then
      (if sfile.size = tfile.size then SyncAction.skip sfile.path
       else SyncAction.upload sfile.path) :: get_sync_actions_total ss ts
    else if sfile.path > tfile.path then
      SyncAction.delete tfile.path :: get_sync_actions_total (sfile :: ss) ts
    else
      SyncAction.upload sfile.path :: get_sync_actions_total ss (tfile :: ts)
termination_by s t => s.length + t.length

/-- The action stream as sync_files (apn_storage/sync.py lines 40-46)
consumes it: _get_sync_actions, then, when delete_missing is false, the
filter dropping every delete_file action. -/
def sync_file_actions (delete_missing : Bool) (source_files target_files : List WalkNode) :
    Except String (List SyncAction) :=
  (_get_sync_actions source_files target_files).map (fun actions =>
    if delete_missing then actions else actions.filter (fun a => !a.isDelete))

/-- Total counterpart of sync_file_actions. -/
def sync_actions_total (delete_missing : Bool) (source_files target_files : List WalkNode) :
    List SyncAction :=
  if delete_missing then get_sync_actions_total source_files target_files
  else (get_sync_actions_total source_files target_files).filter (fun a => !a.isDelete)

/-- Strictly increasing lexicographic path order, the precondition the
diff algorithm places on its two input streams. -/
def PathSorted (l : List WalkNode) : Prop :=
  l.Pairwise (fun a b => a.path < b.path)

/-! ## Filesystem walk (apn_storage/utils.py, lines 194-229) -/

/-- Joining a directory path with an entry name, as ilistdirinfo(full=True)
in the fs library produces full child paths. -/
def pathjoin (a b : String) : String :=
  if a = "/" then a ++ b else a ++ "/" ++ b

/-- A model filesystem tree: the directory structure that walk_fs
traverses.  fs.ilistdirinfo(path, full=True) on a directory node returns
its entries with full paths; fs.isdir distinguishes the two node kinds;
info.get of the size key returns the file size (0 for directories). -/
inductive FSNode where
  | file (size : Nat)
  | dir (entries : List (String × FSNode))

def FSNode.isdirN : FSNode → Bool
  | .file _ => false
  | .dir _ => true

def FSNode.sizeN : FSNode → Nat
  | .file s => s
  | .dir _ => 0

def FSNode.entriesN : FSNode → List (String × FSNode)
  | .file _ => []
  | .dir es => es

/-- Stable insertion into a sorted list, by a boolean comparator. -/
def insertBy {α : Type} (le : α → α → Bool) (x : α) : List α → List α
  | [] => [x]
  | y :: ys => if le x y then x :: y :: ys else y :: insertBy le x ys

/-- Insertion sort by a boolean comparator: models the stable
list.sort() call on the WalkNode list of one directory listing. -/
def sortBy {α : Type} (le : α → α → Bool) : List α → List α
  | [] => []
  | x :: xs => insertBy le x (sortBy le xs)

/-- Python namedtuple comparison on WalkNode: lexicographic on
(path, isdir, size) with False below True. -/
def WalkNode.nodeLe (a b : WalkNode) : Bool :=
  decide (a.path < b.path) ||
    (a.path == b.path &&
      ((!a.isdir && b.isdir) ||
        (a.isdir == b.isdir && decide (a.size ≤ b.size))))

/-- walk_fs from apn_storage/utils.py lines 197-223, on a model tree:
list the entries of the directory with full paths, build the WalkNodes,
sort them, then yield each node followed (for directories, when
max_depth is positive) by the recursive walk of that directory.  The
fuel argument only bounds the recursion depth and is initialised to a
value exceeding the depth of any finite tree. -/
def walk_fs_fuel (fuel : Nat) (entries : List (String × FSNode)) (path : String)
    (maxDepth : WithTop Nat) : List WalkNode :=
  match fuel with
  | 0 => []
  | fuel + 1 =>
    let pairs := entries.map (fun e =>
      (WalkNode.mk (pathjoin path e.1) e.2.isdirN e.2.sizeN, e.2))
    let sortedPairs := sortBy (fun a b => WalkNode.nodeLe a.1 b.1) pairs
    sortedPairs.flatMap (fun pr =>
      pr.1 ::
        (if pr.1.isdir then
          (if 0 < maxDepth then
            walk_fs_fuel fuel pr.2.entriesN pr.1.path (maxDepth - 1)
           else [])
         else []))

mutual

/-- Size of a tree, strictly exceeding its depth: a sufficient fuel. -/
def FSNode.csize : FSNode → Nat
  | .file _ => 1
  | .dir es => 1 + csizeEntries es

def csizeEntries : List (String × FSNode) → Nat
  | [] => 1
  | e :: es => 1 + FSNode.csize e.2 + csizeEntries es

end

def walk_fs (entries : List (String × FSNode)) (path : String)
    (maxDepth : WithTop Nat) : List WalkNode :=
  walk_fs_fuel (csizeEntries entries) entries path maxDepth

/-- walk_files from apn_storage/utils.py lines 226-229: walk_fs with the
directory nodes filtered out. -/
def walk_files (entries : List (String × FSNode)) (path : String)
    (maxDepth : WithTop Nat) : List WalkNode :=
  (walk_fs entries path maxDepth).filter (fun n => !n.isdir)

/-! ## Errors (fs.errors taxonomy, as consumed by apn_storage) -/

/-- The error taxonomy: ResourceNotFoundError, its subclass
ParentDirectoryMissingError, OperationFailedError (raised by MultiFS
write operations with the message that no writeable FS is set),
DestinationExistsError, the Exception raised by upload_file after
exhausting its retries (uploadError carries the path), and a catch-all
for unrelated failures. -/
inductive FsErr where
  | resourceNotFound
  | parentDirectoryMissing
  | operationFailed
  | destinationExists
  | uploadError (path : String)
  | other
deriving DecidableEq, Repr

/-! ## delete_file / skip_file (apn_storage/sync.py, lines 203-211) -/

/-- fs.remove on a flat file listing: removes the path, or raises
ResourceNotFoundError when the path is absent. -/
def fs_remove (files : List String) (path : String) : Except FsErr (List String) :=
  if path ∈ files then Except.ok (files.filter (fun q => q ≠ path))
  else Except.error FsErr.resourceNotFound

/-- delete_file from apn_storage/sync.py lines 203-206: a log line and a
single fs.remove call, with no exception handling and no retry. -/
def delete_file (files : List String) (path : String) : Except FsErr (List String) :=
  fs_remove files path

/-- skip_file from apn_storage/sync.py lines 209-211: only a log line,
no filesystem operation at all. -/
def skip_file (_path : String) : Except FsErr Unit :=
  Except.ok ()

/-! ## upload_file (apn_storage/sync.py, lines 178-200) -/

/-- Outcome of one copy_file call inside the upload loop: success, a
ParentDirectoryMissingError, a ResourceNotFoundError, or any other
exception (which upload_file does not catch). -/
inductive CopyOutcome where
  | ok
  | parentDirMissing
  | resourceNotFound
  | fatal
deriving DecidableEq, Repr

/-- The environment of one loop iteration: the copy outcome, the result
of the source_fs.exists check and whether the path is a dangling
symbolic link (hassyspath, islink and a failing os.path.exists). -/
structure UploadAttempt where
  copy : CopyOutcome
  sourceExists : Bool
  badSymlink : Bool
deriving DecidableEq, Repr

/-- How the upload loop ended, carrying the number of copy_file calls
that were made. -/
inductive UploadOutcome where
  | uploaded (attempts : Nat)
  | skippedBadSymlink (attempts : Nat)
  | fatal (attempts : Nat)
  | exhausted (attempts : Nat)
deriving DecidableEq, Repr

def UploadOutcome.attempts : UploadOutcome → Nat
  | .uploaded n => n
  | .skippedBadSymlink n => n
  | .fatal n => n
  | .exhausted n => n

/-- The retry loop of upload_file: iteration index x, remaining
iterations rem (initially 100), and the running count made of makedir
calls on the target filesystem.  Each iteration runs copy_file; a
ParentDirectoryMissingError, and a ResourceNotFoundError while the
source still exists, trigger a target makedir and another attempt; a
ResourceNotFoundError on a dangling symlink breaks out gracefully; any
other exception propagates; a ResourceNotFoundError with the source
gone but no dangling symlink falls through to the next attempt. -/
def upload_file_from (oracle : Nat → UploadAttempt) : Nat → Nat → Nat → UploadOutcome × Nat
  | x, 0, made => (UploadOutcome.exhausted x, made)
  | x, rem + 1, made =>
    let a := oracle x
    match a.copy with
    | CopyOutcome.ok => (UploadOutcome.uploaded (x + 1), made)
    | CopyOutcome.fatal => (UploadOutcome.fatal (x + 1), made)
    | CopyOutcome.parentDirMissing => upload_file_from oracle (x + 1) rem (made + 1)
    | CopyOutcome.resourceNotFound =>
      if a.sourceExists then upload_file_from oracle (x + 1) rem (made + 1)
      else if a.badSymlink then (UploadOutcome.skippedBadSymlink (x + 1), made)
      else upload_file_from oracle (x + 1) rem made

/-- upload_file from apn_storage/sync.py lines 178-200: run the bounded
loop for 100 iterations; exhausting it raises the per-file Exception
naming the path; an uncaught exception propagates; success and the
graceful dangling-symlink break return normally.  The second component
is the number of target makedir repair calls. -/
def upload_file (path : String) (oracle : Nat → UploadAttempt) : Except FsErr Nat × Nat :=
  match upload_file_from oracle 0 100 0 with
  | (UploadOutcome.uploaded n, made) => (Except.ok n, made)
  | (UploadOutcome.skippedBadSymlink n, made) => (Except.ok n, made)
  | (UploadOutcome.fatal _, made) => (Except.error FsErr.other, made)
  | (UploadOutcome.exhausted _, made) => (Except.error (FsErr.uploadError path), made)

/-! ## CacheFS (apn_storage/wrapfs/cachefs.py) -/

/-- Whole file contents, compared atomically. -/
abbrev Content := Nat

/-- Flat path-to-content lookup on a listing. -/
def lookupFile (files : List (String × Content)) (p : String) : Option Content :=
  (files.find? (fun e => e.1 == p)).map (fun e => e.2)

/-- Overwriting insert on a listing. -/
def setFile (files : List (String × Content)) (p : String) (c : Content) :
    List (String × Content) :=
  (p, c) :: files.filter (fun e => e.1 ≠ p)

/-- os.path.dirname on a slash-separated path: everything before the
last slash (the root case is not exercised here). -/
def dirname (p : String) : String :=
  String.mk ((((p.data.reverse).dropWhile (fun c => c ≠ '/')).drop 1).reverse)

/-- Helper for the slash-prefixes of a path: walks the characters,
recording the accumulated prefix before every slash and, at the end,
the whole path. -/
def prefixesAux : List Char → List Char → List String → List String
  | [], cur, acc => String.mk cur.reverse :: acc
  | c :: rest, cur, acc =>
    if c = '/' then prefixesAux rest (c :: cur) (String.mk cur.reverse :: acc)
    else prefixesAux rest (c :: cur) acc

/-- All the directories that a recursive makedir of p creates: every
slash-prefix of p, including p itself. -/
def pathPrefixList (p : String) : List String :=
  prefixesAux p.data [] []

def makedirRecDirs (dirs : List String) (d : String) : List String :=
  pathPrefixList d ++ dirs

/-- Directory existence on a listing of directories: the root always
exists. -/
def hasDirFor (dirs : List String) (d : String) : Bool :=
  d == "" || dirs.contains d

/-- The mode test of CacheFS.open and of the fs multifs open: a write,
append or update mode. -/
def isWriteMode (mode : String) : Bool :=
  mode.data.contains 'w' || mode.data.contains 'a' || mode.data.contains '+'

/-- Where the file object returned by CacheFS.open was opened. -/
inductive HandleOrigin where
  | source
  | cache
deriving DecidableEq, Repr

/-- A read handle: where it was opened and the contents it serves. -/
structure Handle where
  origin : HandleOrigin
  content : Content
deriving DecidableEq, Repr

/-- The CacheFS state: the wrapped source filesystem, the cache backend
files and directories, and a count of opens performed against the
source (the instrumentation for the claims about source accesses). -/
structure CacheState where
  sourceFiles : List (String × Content)
  cacheFiles : List (String × Content)
  cacheDirs : List String
  sourceOpens : Nat
deriving DecidableEq, Repr

/-- remove on the cache backend: drop the path or raise
ResourceNotFoundError when absent (the only failure this model can
produce for a remove). -/
def cache_remove (files : List (String × Content)) (p : String) :
    Except FsErr (List (String × Content)) :=
  if (files.find? (fun e => e.1 == p)).isSome then
    Except.ok (files.filter (fun e => e.1 ≠ p))
  else Except.error FsErr.resourceNotFound

/-- CacheFS._purge, cachefs.py lines 24-28: cachefs.remove with a
ResourceNotFoundError swallowed. -/
def CacheFS._purge (st : CacheState) (path : String) : CacheState :=
  match cache_remove st.cacheFiles path with
  | Except.ok files => { st with cacheFiles := files }
  | Except.error _ => st

/-- The read-mode branch of CacheFS.open, cachefs.py lines 58-88 (the
write-mode branch at lines 45-56 wraps the source handle and purges on
close; it is the branch taken when isWriteMode holds and is not needed
by the claims below).  A cache hit serves the cache; a miss opens the
source in binary mode (counted in sourceOpens), copies the whole
contents into the cache backend, creating the missing cache directory
when the cache open for writing fails, and then returns the rewound
source handle when the requested mode is exactly rb, otherwise a fresh
cache handle. -/
def CacheFS.openRead (st : CacheState) (path : String) (mode : String) :
    Except FsErr (Handle × CacheState) :=
  match lookupFile st.cacheFiles path with
  | some c => Except.ok (Handle.mk HandleOrigin.cache c, st)
  | none =>
    match lookupFile st.sourceFiles path with
    | none => Except.error FsErr.resourceNotFound
    | some c =>
      let st1 : CacheState := { st with sourceOpens := st.sourceOpens + 1 }
      let st2 : CacheState :=
        if hasDirFor st1.cacheDirs (dirname path) then st1
        else { st1 with cacheDirs := makedirRecDirs st1.cacheDirs (dirname path) }
      let st3 : CacheState := { st2 with cacheFiles := setFile st2.cacheFiles path c }
      if mode == "rb" then Except.ok (Handle.mk HandleOrigin.source c, st3)
      else Except.ok (Handle.mk HandleOrigin.cache c, st3)

/-- CacheFS.setcontents, cachefs.py lines 90-95: write through to the
source (the sourceWriteOk flag is whether that write raises), then, in
a finally block, purge the path from the cache unconditionally. -/
def CacheFS.setcontents (st : CacheState) (path : String) (c : Content)
    (sourceWriteOk : Bool) : Except FsErr Unit × CacheState :=
  let step : Except FsErr Unit × CacheState :=
    if sourceWriteOk then
      (Except.ok (), { st with sourceFiles := setFile st.sourceFiles path c })
    else (Except.error FsErr.other, st)
  (step.1, CacheFS._purge step.2 path)

/-! ## MultiFS (apn_storage/multifs.py) -/

/-- One layer of the multi filesystem: its files and directories. -/
structure LFS where
  files : List (String × Content)
  dirs : List String
deriving DecidableEq, Repr

def LFS.hasDir (fs : LFS) (d : String) : Bool := hasDirFor fs.dirs d

/-- fs.exists: any node, file or directory, at the path. -/
def LFS.existsNode (fs : LFS) (p : String) : Bool :=
  (fs.files.any (fun e => e.1 == p)) || fs.hasDir p

/-- makedir on one layer, with the recursive and allow_recreate flags
of the fs library: recreating an existing directory is an error unless
allowed, a missing parent is an error unless recursive creation adds
every prefix. -/
def LFS.makedir (fs : LFS) (p : String) (recursive allow_recreate : Bool) :
    Except FsErr LFS :=
  if fs.hasDir p then
    if allow_recreate then Except.ok fs else Except.error FsErr.destinationExists
  else if recursive then Except.ok { fs with dirs := makedirRecDirs fs.dirs p }
  else if fs.hasDir (dirname p) then Except.ok { fs with dirs := p :: fs.dirs }
  else Except.error FsErr.parentDirectoryMissing

def LFS.remove (fs : LFS) (p : String) : Except FsErr LFS :=
  if fs.files.any (fun e => e.1 == p) then
    Except.ok { fs with files := fs.files.filter (fun e => e.1 ≠ p) }
  else Except.error FsErr.resourceNotFound

/-- setcontents on one layer: writing under a missing parent directory
raises ParentDirectoryMissingError. -/
def LFS.setcontents (fs : LFS) (p : String) (c : Content) : Except FsErr LFS :=
  if fs.hasDir (dirname p) then Except.ok { fs with files := setFile fs.files p c }
  else Except.error FsErr.parentDirectoryMissing

/-- Opening for writing on one layer: creates (truncates) the file, or
raises ParentDirectoryMissingError under a missing parent. -/
def LFS.openWrite (fs : LFS) (p : String) : Except FsErr (Content × LFS) :=
  if fs.hasDir (dirname p) then Except.ok (0, { fs with files := setFile fs.files p 0 })
  else Except.error FsErr.parentDirectoryMissing

def LFS.openRead (fs : LFS) (p : String) : Except FsErr Content :=
  match lookupFile fs.files p with
  | some c => Except.ok c
  | none => Except.error FsErr.resourceNotFound

/-- The MultiFS state: the ordered fs_sequence (first layer consulted
first) and writefs as an index into it (the write layer object is a
member of the sequence in the repository; the index models that
aliasing). -/
structure MFS where
  fs_sequence : List LFS
  writefs : Option Nat
deriving DecidableEq, Repr

/-- The designated write layer, when one is configured. -/
def MFS.writeLayer (m : MFS) : Option (Nat × LFS) :=
  match m.writefs with
  | none => none
  | some i => (m.fs_sequence[i]?).map (fun fs => (i, fs))

def MFS.updateLayer (m : MFS) (i : Nat) (fs : LFS) : MFS :=
  { m with fs_sequence := m.fs_sequence.set i fs }

/-- The autocreate context manager catches (OSError,
ResourceNotFoundError); ParentDirectoryMissingError is a subclass of
ResourceNotFoundError in the fs library. -/
def caughtByAutocreate : FsErr → Bool
  | FsErr.resourceNotFound => true
  | FsErr.parentDirectoryMissing => true
  | _ => false

/-- Modelled from the fs library dependency (fs.multifs.MultiFS.open),
which MultiFS.open delegates to via super(): a write, append or update
mode goes to the write layer, raising OperationFailedError with the
message that no writeable FS is set when none is configured; a read
mode scans the layers in order and opens on the first layer where the
path exists. -/
def MultiFS.super_open (m : MFS) (path : String) (mode : String) :
    Except FsErr Content × MFS :=
  if isWriteMode mode then
    match m.writeLayer with
    | none => (Except.error FsErr.operationFailed, m)
    | some (i, wfs) =>
      match wfs.openWrite path with
      | Except.error e => (Except.error e, m)
      | Except.ok (c, wfs2) => (Except.ok c, m.updateLayer i wfs2)
  else
    match m.fs_sequence.find? (fun fs => fs.existsNode path) with
    | some fs =>
      match fs.openRead path with
      | Except.ok c => (Except.ok c, m)
      | Except.error e => (Except.error e, m)
    | none => (Except.error FsErr.resourceNotFound, m)

/-- MultiFS.open from apn_storage/multifs.py lines 113-122 together
with _autocreate_missing_writefs_directory (lines 147-176): run the
super open; on a caught error, when a write layer is configured, the
mode writes, and the parent directory is missing on the write layer,
create that directory there (recursive, allow_recreate) and retry the
same open exactly once; in every other case propagate the error
unchanged. -/
def MultiFS.openOp (m : MFS) (path : String) (mode : String) :
    Except FsErr Content × MFS :=
  match MultiFS.super_open m path mode with
  | (Except.ok c, m2) => (Except.ok c, m2)
  | (Except.error e, m2) =>
    if caughtByAutocreate e then
      match m2.writeLayer with
      | none => (Except.error e, m2)
      | some (i, wfs) =>
        if isWriteMode mode then
          if wfs.existsNode (dirname path) then (Except.error e, m2)
          else
            match wfs.makedir (dirname path) true true with
            | Except.ok wfs2 => MultiFS.super_open (m2.updateLayer i wfs2) path mode
            | Except.error e2 => (Except.error e2, m2)
        else (Except.error e, m2)
    else (Except.error e, m2)

/-- MultiFS.makedir from apn_storage/multifs.py lines 124-128: an
OperationFailedError when no writeable FS is set, otherwise delegated
to the write layer alone. -/
def MultiFS.makedir (m : MFS) (path : String) (recursive allow_recreate : Bool) :
    Except FsErr Unit × MFS :=
  match m.writeLayer with
  | none => (Except.error FsErr.operationFailed, m)
  | some (i, wfs) =>
    match wfs.makedir path recursive allow_recreate with
    | Except.ok wfs2 => (Except.ok (), m.updateLayer i wfs2)
    | Except.error e => (Except.error e, m)

/-- MultiFS.remove from apn_storage/multifs.py lines 130-134. -/
def MultiFS.remove (m : MFS) (path : String) : Except FsErr Unit × MFS :=
  match m.writeLayer with
  | none => (Except.error FsErr.operationFailed, m)
  | some (i, wfs) =>
    match wfs.remove path with
    | Except.ok wfs2 => (Except.ok (), m.updateLayer i wfs2)
    | Except.error e => (Except.error e, m)

/-- MultiFS.setcontents from apn_storage/multifs.py lines 136-144: an
OperationFailedError when no writeable FS is set; otherwise the write
layer setcontents wrapped in the autocreate context manager with mode
w, retried once after creating the missing parent directory. -/
def MultiFS.setcontents (m : MFS) (path : String) (c : Content) :
    Except FsErr Unit × MFS :=
  match m.writeLayer with
  | none => (Except.error FsErr.operationFailed, m)
  | some (i, wfs) =>
    match wfs.setcontents path c with
    | Except.ok wfs2 => (Except.ok (), m.updateLayer i wfs2)
    | Except.error e =>
      if caughtByAutocreate e then
        if wfs.existsNode (dirname path) then (Except.error e, m)
        else
          match wfs.makedir (dirname path) true true with
          | Except.ok wfs2 =>
            match wfs2.setcontents path c with
            | Except.ok wfs3 => (Except.ok (), m.updateLayer i wfs3)
            | Except.error e3 => (Except.error e3, m.updateLayer i wfs2)
          | Except.error e2 => (Except.error e2, m)
      else (Except.error e, m)

/-- An iteration environment under which the upload loop performs
another attempt instead of stopping: a ParentDirectoryMissingError, or
a ResourceNotFoundError that is not a graceful dangling-symlink
break. -/
def UploadAttempt.isRetry (a : UploadAttempt) : Bool :=
  (a.copy == CopyOutcome.parentDirMissing) ||
    ((a.copy == CopyOutcome.resourceNotFound) && (a.sourceExists || !a.badSymlink))

/-- The node of a listing at a given path, when present. -/
def findNode (l : List WalkNode) (p : String) : Option WalkNode :=
  l.find? (fun n => n.path == p)

/-- The action the specification assigns to one path: Upload when the
path is source-only or present on both sides with differing size, Skip
when present on both sides with equal size, Delete when target-only.
Written from the spec wording, to be compared with the merge. -/
def specActionAt (o t : List WalkNode) (p : String) : Option SyncAction :=
  match findNode o p, findNode t p with
  | some s, some u =>
    some (if s.size = u.size then SyncAction.skip p else SyncAction.upload p)
  | some _, none => some (SyncAction.upload p)
  | none, some _ => some (SyncAction.delete p)
  | none, none => none

/-- The origin listing of the specification scenario. -/
def c1Origin : List WalkNode :=
  [WalkNode.mk "a.txt" false 10, WalkNode.mk "b.txt" false 20, WalkNode.mk "c.txt" false 5]

/-- The target listing of the specification scenario, with the
target-only d.txt. -/
def c1Target : List WalkNode :=
  [WalkNode.mk "a.txt" false 10, WalkNode.mk "b.txt" false 99, WalkNode.mk "d.txt" false 1]

/-! ## Theorems -/

theorem findNode_nil (p : String) : findNode [] p = none := rfl

theorem findNode_cons (x : WalkNode) (xs : List WalkNode) (p : String) :
    findNode (x :: xs) p = if x.path = p then some x else findNode xs p := by
  rw [findNode, List.find?]
  by_cases h : x.path = p
  · simp [h]
  · have hb : (x.path == p) = false := by simpa using h
    simp [hb, h, findNode]

theorem findNode_eq_none_iff (l : List WalkNode) (p : String) :
    findNode l p = none ↔ p ∉ l.map WalkNode.path := by
  rw [findNode, List.find?_eq_none]
  constructor
  · intro h hmem
    rcases List.mem_map.mp hmem with ⟨b, hb, hbp⟩
    have := h b hb
    simp [hbp] at this
  · intro h x hx
    simp only [beq_iff_eq]
    intro hxp
    exact h (List.mem_map.mpr ⟨x, hx, hxp⟩)

theorem findNode_none_of_all_gt (l : List WalkNode) (p : String)
    (h : ∀ b ∈ l, p < b.path) : findNode l p = none := by
  rw [findNode, List.find?_eq_none]
  intro x hx
  simp only [beq_iff_eq]
  exact ne_of_gt (h x hx)

theorem findNode_path (l : List WalkNode) (p : String) (n : WalkNode)
    (h : findNode l p = some n) : n ∈ l ∧ n.path = p := by
  refine ⟨List.mem_of_find?_eq_some h, ?_⟩
  have := List.find?_some h
  simpa using this

/-- On a path-sorted listing, the node found at p is the unique member
with that path. -/
theorem findNode_of_mem (p : String) : ∀ l : List WalkNode, PathSorted l →
    ∀ n ∈ l, n.path = p → findNode l p = some n := by
  intro l
  induction l with
  | nil =>
    intro _ n hn
    cases hn
  | cons x xs ih =>
    intro hl n hmem hp
    rw [PathSorted, List.pairwise_cons] at hl
    rcases List.mem_cons.mp hmem with h | h
    · subst h
      rw [findNode_cons, if_pos hp]
    · have hne : x.path ≠ p := by
        have hlt := hl.1 n h
        rw [hp] at hlt
        exact ne_of_lt hlt
      rw [findNode_cons, if_neg hne]
      exact ih hl.2 n h hp

theorem specActionAt_cons_left (s : WalkNode) (o t : List WalkNode) (p : String)
    (h : s.path ≠ p) : specActionAt (s :: o) t p = specActionAt o t p := by
  rw [specActionAt, specActionAt, findNode_cons, if_neg h]

theorem specActionAt_cons_right (u : WalkNode) (o t : List WalkNode) (p : String)
    (h : u.path ≠ p) : specActionAt o (u :: t) p = specActionAt o t p := by
  rw [specActionAt, specActionAt, findNode_cons, if_neg h]

/-- Every emitted action concerns a path of one of the two inputs. -/
theorem mem_get_sync_actions_path (o t : List WalkNode) :
    ∀ a ∈ get_sync_actions_total o t,
      a.path ∈ o.map WalkNode.path ∨ a.path ∈ t.map WalkNode.path := by
  induction o, t using get_sync_actions_total.induct with
  | case1 =>
    intro a ha
    simp [get_sync_actions_total] at ha
  | case2 tfile ts ih =>
    intro a ha
    simp only [get_sync_actions_total] at ha
    rcases List.mem_cons.mp ha with h | h
    · subst h
      right
      simp [SyncAction.path]
    · rcases ih a h with h2 | h2
      · simp at h2
      · right
        simp only [List.map_cons, List.mem_cons]
        right
        exact h2
  | case3 sfile ss ih =>
    intro a ha
    simp only [get_sync_actions_total] at ha
    rcases List.mem_cons.mp ha with h | h
    · subst h
      left
      simp [SyncAction.path]
    · rcases ih a h with h2 | h2
      · left
        simp only [List.map_cons, List.mem_cons]
        right
        exact h2
      · simp at h2
  | case4 sfile ss tfile ts heq ih =>
    intro a ha
    simp only [get_sync_actions_total, if_pos heq] at ha
    rcases List.mem_cons.mp ha with h | h
    · subst h
      left
      by_cases hsz : sfile.size = tfile.size <;>
        simp [hsz, SyncAction.path]
    · rcases ih a h with h2 | h2
      · left
        simp only [List.map_cons, List.mem_cons]
        right
        exact h2
      · right
        simp only [List.map_cons, List.mem_cons]
        right
        exact h2
  | case5 sfile ss tfile ts hne hgt ih =>
    intro a ha
    simp only [get_sync_actions_total, if_neg hne, if_pos hgt] at ha
    rcases List.mem_cons.mp ha with h | h
    · subst h
      right
      simp [SyncAction.path]
    · rcases ih a h with h2 | h2
      · left
        exact h2
      · right
        simp only [List.map_cons, List.mem_cons]
        right
        exact h2
  | case6 sfile ss tfile ts hne hngt ih =>
    intro a ha
    simp only [get_sync_actions_total, if_neg hne, if_neg hngt] at ha
    rcases List.mem_cons.mp ha with h | h
    · subst h
      left
      simp [SyncAction.path]
    · rcases ih a h with h2 | h2
      · left
        simp only [List.map_cons, List.mem_cons]
        right
        exact h2
      · right
        exact h2

/-- Any action of the merge of two tails bounded below by p has a path
above p. -/
theorem rec_path_gt (o t : List WalkNode) (a : SyncAction) (p : String)
    (ho : ∀ q ∈ o.map WalkNode.path, p < q) (ht : ∀ q ∈ t.map WalkNode.path, p < q)
    (ha : a ∈ get_sync_actions_total o t) : p < a.path := by
  rcases mem_get_sync_actions_path o t a ha with h | h
  · exact ho _ h
  · exact ht _ h

/-- On sorted inputs the merge emits actions in strictly increasing
path order. -/
theorem get_sync_actions_sorted : ∀ o t : List WalkNode, PathSorted o → PathSorted t →
    ((get_sync_actions_total o t).map SyncAction.path).Pairwise (· < ·) := by
  intro o t
  induction o, t using get_sync_actions_total.induct with
  | case1 =>
    intro _ _
    simp [get_sync_actions_total]
  | case2 tfile ts ih =>
    intro ho ht
    rw [PathSorted, List.pairwise_cons] at ht
    simp only [get_sync_actions_total, List.map_cons]
    rw [List.pairwise_cons]
    refine ⟨?_, ih ho ht.2⟩
    intro q hq
    rcases List.mem_map.mp hq with ⟨a, ha, hap⟩
    subst hap
    refine rec_path_gt [] ts a _ (by simp) ?_ ha
    intro q2 hq2
    rcases List.mem_map.mp hq2 with ⟨b, hb, hbp⟩
    subst hbp
    exact ht.1 b hb
  | case3 sfile ss ih =>
    intro ho ht
    rw [PathSorted, List.pairwise_cons] at ho
    simp only [get_sync_actions_total, List.map_cons]
    rw [List.pairwise_cons]
    refine ⟨?_, ih ho.2 ht⟩
    intro q hq
    rcases List.mem_map.mp hq with ⟨a, ha, hap⟩
    subst hap
    refine rec_path_gt ss [] a _ ?_ (by simp) ha
    intro q2 hq2
    rcases List.mem_map.mp hq2 with ⟨b, hb, hbp⟩
    subst hbp
    exact ho.1 b hb
  | case4 sfile ss tfile ts heq ih =>
    intro ho ht
    rw [PathSorted, List.pairwise_cons] at ho ht
    simp only [get_sync_actions_total, if_pos heq, List.map_cons]
    rw [List.pairwise_cons]
    have hhead : SyncAction.path
        (if sfile.size = tfile.size then SyncAction.skip sfile.path
         else SyncAction.upload sfile.path) = sfile.path := by
      by_cases hsz : sfile.size = tfile.size <;> simp [hsz, SyncAction.path]
    refine ⟨?_, ih ho.2 ht.2⟩
    intro q hq
    rcases List.mem_map.mp hq with ⟨a, ha, hap⟩
    subst hap
    rw [hhead]
    refine rec_path_gt ss ts a _ ?_ ?_ ha
    · intro q2 hq2
      rcases List.mem_map.mp hq2 with ⟨b, hb, hbp⟩
      subst hbp
      exact ho.1 b hb
    · intro q2 hq2
      rcases List.mem_map.mp hq2 with ⟨b, hb, hbp⟩
      subst hbp
      rw [heq]
      exact ht.1 b hb
  | case5 sfile ss tfile ts hne hgt ih =>
    intro ho ht
    rw [PathSorted, List.pairwise_cons] at ht
    have ho2 := ho
    rw [PathSorted, List.pairwise_cons] at ho2
    simp only [get_sync_actions_total, if_neg hne, if_pos hgt, List.map_cons]
    rw [List.pairwise_cons]
    refine ⟨?_, ih ho ht.2⟩
    intro q hq
    rcases List.mem_map.mp hq with ⟨a, ha, hap⟩
    subst hap
    show SyncAction.path (SyncAction.delete tfile.path) < a.path
    rw [SyncAction.path]
    refine rec_path_gt (sfile :: ss) ts a _ ?_ ?_ ha
    · intro q2 hq2
      simp only [List.map_cons, List.mem_cons] at hq2
      rcases hq2 with h | h
      · rw [h]
        exact hgt
      · rcases List.mem_map.mp h with ⟨b, hb, hbp⟩
        subst hbp
        exact lt_trans hgt (ho2.1 b hb)
    · intro q2 hq2
      rcases List.mem_map.mp hq2 with ⟨b, hb, hbp⟩
      subst hbp
      exact ht.1 b hb
  | case6 sfile ss tfile ts hne hngt ih =>
    intro ho ht
    have hlt : sfile.path < tfile.path := by
      rcases lt_trichotomy sfile.path tfile.path with h | h | h
      · exact h
      · exact absurd h hne
      · exact absurd h hngt
    rw [PathSorted, List.pairwise_cons] at ho
    have ht2 := ht
    rw [PathSorted, List.pairwise_cons] at ht2
    simp only [get_sync_actions_total, if_neg hne, if_neg hngt, List.map_cons]
    rw [List.pairwise_cons]
    refine ⟨?_, ih ho.2 ht⟩
    intro q hq
    rcases List.mem_map.mp hq with ⟨a, ha, hap⟩
    subst hap
    show SyncAction.path (SyncAction.upload sfile.path) < a.path
    rw [SyncAction.path]
    refine rec_path_gt ss (tfile :: ts) a _ ?_ ?_ ha
    · intro q2 hq2
      rcases List.mem_map.mp hq2 with ⟨b, hb, hbp⟩
      subst hbp
      exact ho.1 b hb
    · intro q2 hq2
      simp only [List.map_cons, List.mem_cons] at hq2
      rcases hq2 with h | h
      · rw [h]
        exact hlt
      · rcases List.mem_map.mp h with ⟨b, hb, hbp⟩
        subst hbp
        exact lt_trans hlt (ht2.1 b hb)

/-- The faithful embedding of _get_sync_actions never reaches the
raising else branch: it always returns the total merge. -/
theorem _get_sync_actions_eq (s t : List WalkNode) :
    _get_sync_actions s t = Except.ok (get_sync_actions_total s t) := by
  induction s, t using get_sync_actions_total.induct with
  | case1 => simp [_get_sync_actions, get_sync_actions_total, Except.map]
  | case2 tfile ts ih => simp [_get_sync_actions, get_sync_actions_total, Except.map, ih]
  | case3 sfile ss ih => simp [_get_sync_actions, get_sync_actions_total, Except.map, ih]
  | case4 sfile ss tfile ts heq ih =>
    simp [_get_sync_actions, get_sync_actions_total, Except.map, heq, ih]
  | case5 sfile ss tfile ts hne hgt ih =>
    simp [_get_sync_actions, get_sync_actions_total, Except.map, hne, hgt, ih]
  | case6 sfile ss tfile ts hne hngt ih =>
    have hlt : sfile.path < tfile.path := by
      rcases lt_trichotomy sfile.path tfile.path with h | h | h
      · exact h
      · exact absurd h hne
      · exact absurd h hngt
    simp [_get_sync_actions, get_sync_actions_total, Except.map, hne, hngt, hlt, ih]

/-- C10: on every pair of input streams, sorted or not, the final else
branch of _get_sync_actions raising ValueError is unreachable: the
generator always yields the full action list. -/
theorem c10_impossible_branch_unreachable (source_files target_files : List WalkNode) :
    ∃ actions, _get_sync_actions source_files target_files = Except.ok actions :=
  ⟨get_sync_actions_total source_files target_files, _get_sync_actions_eq _ _⟩

/-- C3: when the second run's target file listing carries exactly the
first run's source paths and sizes (the state a first run with
delete_missing that performed every action leaves behind, with no
external mutation), the second run's diff with delete_missing consists
solely of Skip actions. -/
theorem c3_second_sync_all_skips (source_files target_files : List WalkNode)
    (h : target_files.map (fun n => (n.path, n.size)) =
      source_files.map (fun n => (n.path, n.size))) :
    sync_file_actions true source_files target_files =
      Except.ok (source_files.map (fun n => SyncAction.skip n.path)) := by
  have key : ∀ o t : List WalkNode,
      t.map (fun n => (n.path, n.size)) = o.map (fun n => (n.path, n.size)) →
      get_sync_actions_total o t = o.map (fun n => SyncAction.skip n.path) := by
    intro o
    induction o with
    | nil =>
      intro t ht
      cases t with
      | nil => simp [get_sync_actions_total]
      | cons u us => simp at ht
    | cons s ss ih =>
      intro t ht
      cases t with
      | nil => simp at ht
      | cons u us =>
        simp only [List.map_cons, List.cons.injEq, Prod.mk.injEq] at ht
        obtain ⟨⟨hpath, hsize⟩, hrest⟩ := ht
        simp [get_sync_actions_total, hpath, hsize, ih us hrest]
  rw [sync_file_actions, _get_sync_actions_eq]
  simp [Except.map, key source_files target_files h]

/-- Witness for C3 at a concrete listing pair. -/
theorem c3_second_sync_all_skips_witness :
    ([WalkNode.mk "a.txt" false 10, WalkNode.mk "b.txt" false 5].map
        (fun n => (n.path, n.size)) =
      [WalkNode.mk "a.txt" false 10, WalkNode.mk "b.txt" false 5].map
        (fun n => (n.path, n.size))) ∧
    sync_file_actions true
      [WalkNode.mk "a.txt" false 10, WalkNode.mk "b.txt" false 5]
      [WalkNode.mk "a.txt" false 10, WalkNode.mk "b.txt" false 5] =
      Except.ok [SyncAction.skip "a.txt", SyncAction.skip "b.txt"] :=
  ⟨rfl, c3_second_sync_all_skips
    [WalkNode.mk "a.txt" false 10, WalkNode.mk "b.txt" false 5]
    [WalkNode.mk "a.txt" false 10, WalkNode.mk "b.txt" false 5] rfl⟩

/-- The filesystem of the C2 failing input: a directory foo holding one
file x, next to a sibling file foo.txt. -/
def c2Tree : List (String × FSNode) :=
  [("foo", FSNode.dir [("x", FSNode.file 1)]), ("foo.txt", FSNode.file 2)]

/-- C2, evaluation at the failing input: walk_files on a directory foo
with child x next to a sibling file foo.txt yields /foo/x before
/foo.txt.  Every delivered node is a non-directory (that half of the
claim holds), but /foo.txt is lexicographically smaller than /foo/x
(the dot is below the slash), so the delivered sequence is not in
strictly increasing lexicographic path order. -/
theorem c2_walk_files_not_sorted :
    walk_files c2Tree "/" ⊤ =
      [WalkNode.mk "/foo/x" false 1, WalkNode.mk "/foo.txt" false 2] ∧
    (walk_files c2Tree "/" ⊤).all (fun n => !n.isdir) = true ∧
    ¬ (walk_files c2Tree "/" ⊤).Pairwise (fun a b => a.path < b.path) := by
  have heval : walk_files c2Tree "/" ⊤ =
      [WalkNode.mk "/foo/x" false 1, WalkNode.mk "/foo.txt" false 2] := by
    simp [walk_files, walk_fs, c2Tree, csizeEntries, FSNode.csize, walk_fs_fuel,
      sortBy, insertBy, WalkNode.nodeLe, pathjoin, FSNode.isdirN, FSNode.sizeN,
      FSNode.entriesN]
    decide
  refine ⟨heval, by rw [heval]; decide, ?_⟩
  rw [heval]
  intro hp
  have hlt := List.rel_of_pairwise_cons hp (List.mem_singleton.mpr rfl)
  revert hlt
  simp only [WalkNode.path]
  simp
  decide

/-- C4 counterexample: a delete whose target path is already absent is
an error of the run, not a success: delete_file propagates the
ResourceNotFoundError raised by the underlying remove. -/
theorem c4_cex_absent_delete_errors :
    delete_file [] "a.txt" = Except.error FsErr.resourceNotFound ∧
    (delete_file [] "a.txt").isOk = false := by
  constructor
  · simp [delete_file, fs_remove]
  · simp [delete_file, fs_remove, Except.isOk, Except.toBool]

/-- C4 amended: delete_file and skip_file perform no retry loop
(delete_file is exactly one underlying remove call, skip_file performs
no filesystem operation), and a delete whose target path is already
absent propagates the resource-not-found error raised by the
underlying remove instead of being treated as success. -/
theorem c4_no_retry_absent_delete_propagates (files : List String) (path : String) :
    delete_file files path = fs_remove files path ∧
    (path ∉ files → delete_file files path = Except.error FsErr.resourceNotFound) ∧
    skip_file path = Except.ok () := by
  refine ⟨rfl, ?_, rfl⟩
  intro h
  simp [delete_file, fs_remove, h]

/-- Witness for the amended C4 at a concrete listing. -/
theorem c4_no_retry_absent_delete_propagates_witness :
    (delete_file ["b.txt"] "a.txt" = fs_remove ["b.txt"] "a.txt" ∧
      ("a.txt" ∉ ["b.txt"] →
        delete_file ["b.txt"] "a.txt" = Except.error FsErr.resourceNotFound) ∧
      skip_file "a.txt" = Except.ok ()) :=
  c4_no_retry_absent_delete_propagates ["b.txt"] "a.txt"

/-- A lookup of p never succeeds after filtering p out of a listing. -/
theorem lookupFile_filter_self (files : List (String × Content)) (p : String) :
    lookupFile (files.filter (fun e => e.1 ≠ p)) p = none := by
  rw [lookupFile]
  have h : (files.filter (fun e => e.1 ≠ p)).find? (fun e => e.1 == p) = none := by
    rw [List.find?_eq_none]
    intro x hx
    rw [List.mem_filter] at hx
    simp only [decide_eq_true_eq] at hx
    simp [hx.2]
  rw [h]
  rfl

/-- After a purge, the purged path has no cache entry. -/
theorem purge_lookup_none (st : CacheState) (path : String) :
    lookupFile (CacheFS._purge st path).cacheFiles path = none := by
  rw [CacheFS._purge, cache_remove]
  rcases hf : st.cacheFiles.find? (fun e => e.1 == path) with _ | e
  · simp only [hf, Option.isSome_none, Bool.false_eq_true, if_false]
    rw [lookupFile, hf]
    rfl
  · simp only [hf, Option.isSome_some, if_true]
    exact lookupFile_filter_self st.cacheFiles path

/-- Purging a path with no cache entry changes nothing and raises no
error. -/
theorem purge_absent_noop (st : CacheState) (path : String)
    (h : lookupFile st.cacheFiles path = none) : CacheFS._purge st path = st := by
  rw [CacheFS._purge, cache_remove]
  rcases hf : st.cacheFiles.find? (fun e => e.1 == path) with _ | e
  · simp [hf]
  · rw [lookupFile, hf] at h
    simp at h

/-- The purge only touches the cache file listing. -/
theorem purge_sourceFiles (st : CacheState) (path : String) :
    (CacheFS._purge st path).sourceFiles = st.sourceFiles := by
  rw [CacheFS._purge]
  cases hrem : cache_remove st.cacheFiles path with
  | ok files => simp
  | error e => simp

/-- A lookup on a fresh setFile entry returns the written content. -/
theorem lookupFile_setFile_self (files : List (String × Content)) (p : String) (c : Content) :
    lookupFile (setFile files p c) p = some c := by
  simp [lookupFile, setFile]

/-- A successful read of a path with no cache entry serves the current
source content. -/
theorem read_after_miss_serves_source (st : CacheState) (path mode : String)
    (hmiss : lookupFile st.cacheFiles path = none) (h : Handle) (st2 : CacheState)
    (hopen : CacheFS.openRead st path mode = Except.ok (h, st2)) :
    lookupFile st.sourceFiles path = some h.content := by
  rw [CacheFS.openRead, hmiss] at hopen
  rcases hsrc : lookupFile st.sourceFiles path with _ | c2
  · rw [hsrc] at hopen
    exact absurd hopen (by simp)
  · rw [hsrc] at hopen
    by_cases hm : (mode == "rb") = true
    · simp only [hm, if_true, Except.ok.injEq, Prod.mk.injEq] at hopen
      rw [← hopen.1]
    · simp only [hm, Bool.false_eq_true, if_false, Except.ok.injEq, Prod.mk.injEq] at hopen
      rw [← hopen.1]

/-- C6: CacheFS.setcontents writes through to the source and purges the
path from the cache backend unconditionally — also when the source
write raises — purging an absent entry raises no error and is a no-op,
and afterwards no successful read of the path can serve a cache entry
created before the write: it serves the current source content. -/
theorem c6_setcontents_unconditional_purge (st : CacheState) (path : String)
    (c : Content) (sourceWriteOk : Bool) :
    lookupFile (CacheFS.setcontents st path c sourceWriteOk).2.cacheFiles path = none ∧
    (sourceWriteOk = false →
      (CacheFS.setcontents st path c sourceWriteOk).1 = Except.error FsErr.other ∧
      (CacheFS.setcontents st path c sourceWriteOk).2.sourceFiles = st.sourceFiles) ∧
    (sourceWriteOk = true →
      (CacheFS.setcontents st path c sourceWriteOk).1 = Except.ok () ∧
      (CacheFS.setcontents st path c sourceWriteOk).2.sourceFiles =
        setFile st.sourceFiles path c) ∧
    (lookupFile st.cacheFiles path = none → CacheFS._purge st path = st) ∧
    (∀ mode h st2,
      CacheFS.openRead (CacheFS.setcontents st path c sourceWriteOk).2 path mode =
        Except.ok (h, st2) →
      lookupFile (CacheFS.setcontents st path c sourceWriteOk).2.sourceFiles path =
        some h.content) := by
  cases sourceWriteOk with
  | false =>
    refine ⟨purge_lookup_none _ _, ?_, ?_, purge_absent_noop st path, ?_⟩
    · intro _
      exact ⟨rfl, purge_sourceFiles _ _⟩
    · intro hcontra
      cases hcontra
    · intro mode h st2 hopen
      exact read_after_miss_serves_source _ path mode (purge_lookup_none _ _) h st2 hopen
  | true =>
    refine ⟨purge_lookup_none _ _, ?_, ?_, purge_absent_noop st path, ?_⟩
    · intro hcontra
      cases hcontra
    · intro _
      exact ⟨rfl, purge_sourceFiles _ _⟩
    · intro mode h st2 hopen
      exact read_after_miss_serves_source _ path mode (purge_lookup_none _ _) h st2 hopen

/-- Witness for C6 at a concrete state: a failing source write still
purges the pre-existing cache entry. -/
theorem c6_setcontents_unconditional_purge_witness :
    lookupFile (CacheFS.setcontents (CacheState.mk [] [("a.txt", 3)] [] 0)
      "a.txt" 5 false).2.cacheFiles "a.txt" = none ∧
    (false = false →
      (CacheFS.setcontents (CacheState.mk [] [("a.txt", 3)] [] 0) "a.txt" 5 false).1 =
        Except.error FsErr.other ∧
      (CacheFS.setcontents (CacheState.mk [] [("a.txt", 3)] [] 0) "a.txt" 5 false).2.sourceFiles =
        ([] : List (String × Content))) ∧
    (false = true →
      (CacheFS.setcontents (CacheState.mk [] [("a.txt", 3)] [] 0) "a.txt" 5 false).1 =
        Except.ok () ∧
      (CacheFS.setcontents (CacheState.mk [] [("a.txt", 3)] [] 0) "a.txt" 5 false).2.sourceFiles =
        setFile [] "a.txt" 5) ∧
    (lookupFile [("a.txt", 3)] "a.txt" = none →
      CacheFS._purge (CacheState.mk [] [("a.txt", 3)] [] 0) "a.txt" =
        CacheState.mk [] [("a.txt", 3)] [] 0) ∧
    (∀ mode h st2,
      CacheFS.openRead (CacheFS.setcontents (CacheState.mk [] [("a.txt", 3)] [] 0)
          "a.txt" 5 false).2 "a.txt" mode = Except.ok (h, st2) →
      lookupFile (CacheFS.setcontents (CacheState.mk [] [("a.txt", 3)] [] 0)
          "a.txt" 5 false).2.sourceFiles "a.txt" = some h.content) :=
  c6_setcontents_unconditional_purge (CacheState.mk [] [("a.txt", 3)] [] 0) "a.txt" 5 false

/-- The whole accumulated path is always among the recorded prefixes. -/
theorem mem_prefixesAux (cs : List Char) : ∀ cur acc,
    String.mk (cur.reverse ++ cs) ∈ prefixesAux cs cur acc := by
  induction cs with
  | nil =>
    intro cur acc
    simp [prefixesAux]
  | cons c rest ih =>
    intro cur acc
    rw [prefixesAux]
    by_cases hc : c = '/'
    · rw [if_pos hc]
      simpa using ih (c :: cur) (String.mk cur.reverse :: acc)
    · rw [if_neg hc]
      simpa using ih (c :: cur) acc

/-- A path is among its own slash-prefixes. -/
theorem self_mem_pathPrefixList (p : String) : p ∈ pathPrefixList p := by
  simpa [pathPrefixList] using mem_prefixesAux p.data [] []

/-- After a recursive makedir of d, the directory d exists. -/
theorem hasDirFor_makedirRecDirs_self (dirs : List String) (d : String) :
    hasDirFor (makedirRecDirs dirs d) d = true := by
  have h := self_mem_pathPrefixList d
  simp [hasDirFor, makedirRecDirs, List.contains, List.elem_eq_mem, h]

/-- C5 counterexample: a cache-miss read with mode rb returns the
rewound source handle, not a handle from the cache backend, although
the cache was correctly populated and the source read exactly once. -/
theorem c5_cex_rb_miss_returns_source_handle :
    CacheFS.openRead (CacheState.mk [("a.txt", 7)] [] [] 0) "a.txt" "rb" =
      Except.ok (Handle.mk HandleOrigin.source 7,
        CacheState.mk [("a.txt", 7)] [("a.txt", 7)] [] 1) ∧
    HandleOrigin.source ≠ HandleOrigin.cache := by
  constructor
  · rfl
  · decide

/-- C5 amended: a read-mode open that misses the cache reads the source
exactly once, copies the whole contents into the cache backend
(creating the missing cache directory as needed), leaves the source
untouched, and returns a handle carrying those contents — served from
the cache backend unless the requested mode is exactly rb, in which
case it is the rewound source handle; a subsequent read-mode open of
the path is served from the cache with zero additional source opens. -/
theorem c5_amended_read_through (st : CacheState) (path mode : String) (c : Content)
    (hmode : isWriteMode mode = false)
    (hmiss : lookupFile st.cacheFiles path = none)
    (hsrc : lookupFile st.sourceFiles path = some c) :
    ∃ st3 : CacheState,
      CacheFS.openRead st path mode =
        Except.ok (Handle.mk
          (if mode == "rb" then HandleOrigin.source else HandleOrigin.cache) c, st3) ∧
      st3.sourceOpens = st.sourceOpens + 1 ∧
      lookupFile st3.cacheFiles path = some c ∧
      st3.sourceFiles = st.sourceFiles ∧
      hasDirFor st3.cacheDirs (dirname path) = true ∧
      CacheFS.openRead st3 path mode = Except.ok (Handle.mk HandleOrigin.cache c, st3) := by
  by_cases hdir : hasDirFor st.cacheDirs (dirname path) = true
  · refine ⟨CacheState.mk st.sourceFiles (setFile st.cacheFiles path c)
        st.cacheDirs (st.sourceOpens + 1), ?_, rfl,
      lookupFile_setFile_self st.cacheFiles path c, rfl, hdir, ?_⟩
    · simp only [CacheFS.openRead, hmiss, hsrc, hdir, if_true]
      by_cases hm : (mode == "rb") = true
      · simp [hm]
      · simp [hm]
    · simp only [CacheFS.openRead, lookupFile_setFile_self st.cacheFiles path c]
  · refine ⟨CacheState.mk st.sourceFiles (setFile st.cacheFiles path c)
        (makedirRecDirs st.cacheDirs (dirname path)) (st.sourceOpens + 1), ?_, rfl,
      lookupFile_setFile_self st.cacheFiles path c, rfl,
      hasDirFor_makedirRecDirs_self st.cacheDirs (dirname path), ?_⟩
    · simp only [CacheFS.openRead, hmiss, hsrc, hdir, if_false]
      by_cases hm : (mode == "rb") = true
      · simp [hm, hdir]
      · simp [hm, hdir]
    · simp only [CacheFS.openRead, lookupFile_setFile_self st.cacheFiles path c]

/-- Witness for the amended C5 at a concrete state and mode r. -/
theorem c5_amended_read_through_witness :
    isWriteMode "r" = false ∧
    lookupFile ([] : List (String × Content)) "a.txt" = none ∧
    lookupFile [("a.txt", 7)] "a.txt" = some 7 ∧
    (∃ st3 : CacheState,
      CacheFS.openRead (CacheState.mk [("a.txt", 7)] [] [] 0) "a.txt" "r" =
        Except.ok (Handle.mk
          (if "r" == "rb" then HandleOrigin.source else HandleOrigin.cache) 7, st3) ∧
      st3.sourceOpens = (CacheState.mk [("a.txt", 7)] [] [] 0).sourceOpens + 1 ∧
      lookupFile st3.cacheFiles "a.txt" = some 7 ∧
      st3.sourceFiles = [("a.txt", 7)] ∧
      hasDirFor st3.cacheDirs (dirname "a.txt") = true ∧
      CacheFS.openRead st3 "a.txt" "r" =
        Except.ok (Handle.mk HandleOrigin.cache 7, st3)) :=
  ⟨by decide, rfl, rfl,
    c5_amended_read_through (CacheState.mk [("a.txt", 7)] [] [] 0) "a.txt" "r" 7
      (by decide) rfl rfl⟩

/-- Updating the write layer leaves every other layer untouched. -/
theorem updateLayer_getElem_ne (m : MFS) (i : Nat) (fs : LFS) (j : Nat) (hj : j ≠ i) :
    (m.updateLayer i fs).fs_sequence[j]? = m.fs_sequence[j]? := by
  rw [MFS.updateLayer]
  exact List.getElem?_set_ne (Ne.symm hj)

/-- Updating the write layer keeps it the designated write layer. -/
theorem writeLayer_updateLayer (m : MFS) (i : Nat) (wfs fs : LFS)
    (hwl : m.writeLayer = some (i, wfs)) :
    (m.updateLayer i fs).writeLayer = some (i, fs) := by
  rw [MFS.writeLayer] at hwl ⊢
  rcases hw : m.writefs with _ | i2
  · rw [hw] at hwl
    simp at hwl
  · rw [hw] at hwl
    simp only [Option.map_eq_some'] at hwl
    obtain ⟨fs0, hfs0, heq⟩ := hwl
    have hi2 : i2 = i := congrArg Prod.fst heq
    subst hi2
    have hlt : i2 < m.fs_sequence.length := by
      have := List.getElem?_eq_some.mp hfs0
      exact this.1
    simp [MFS.updateLayer, hw, List.getElem?_set_self, hlt]

/-- C7: with no write layer, every write operation fails with the no
writeable FS error and mutates nothing; with a write layer at index i,
every write operation leaves every layer other than i unchanged. -/
theorem c7_write_ops_use_write_layer_only (m : MFS) (path mode : String) (c : Content)
    (recursive allow_recreate : Bool) (hmode : isWriteMode mode = true) :
    (m.writeLayer = none →
      MultiFS.openOp m path mode = (Except.error FsErr.operationFailed, m) ∧
      MultiFS.makedir m path recursive allow_recreate =
        (Except.error FsErr.operationFailed, m) ∧
      MultiFS.remove m path = (Except.error FsErr.operationFailed, m) ∧
      MultiFS.setcontents m path c = (Except.error FsErr.operationFailed, m)) ∧
    (∀ i wfs, m.writeLayer = some (i, wfs) → ∀ j, j ≠ i →
      (MultiFS.openOp m path mode).2.fs_sequence[j]? = m.fs_sequence[j]? ∧
      (MultiFS.makedir m path recursive allow_recreate).2.fs_sequence[j]? =
        m.fs_sequence[j]? ∧
      (MultiFS.remove m path).2.fs_sequence[j]? = m.fs_sequence[j]? ∧
      (MultiFS.setcontents m path c).2.fs_sequence[j]? = m.fs_sequence[j]?) := by
  constructor
  · intro hwl
    refine ⟨?_, ?_, ?_, ?_⟩
    · rw [MultiFS.openOp, MultiFS.super_open]
      simp [hmode, hwl, caughtByAutocreate]
    · rw [MultiFS.makedir]
      simp [hwl]
    · rw [MultiFS.remove]
      simp [hwl]
    · rw [MultiFS.setcontents]
      simp [hwl]
  · intro i wfs hwl j hj
    refine ⟨?_, ?_, ?_, ?_⟩
    · rw [MultiFS.openOp, MultiFS.super_open]
      simp only [hmode, if_true, hwl]
      cases hop : wfs.openWrite path with
      | ok cw =>
        simp [hop, updateLayer_getElem_ne m i cw.2 j hj]
      | error e =>
        simp only [hop]
        by_cases hc : caughtByAutocreate e = true
        · simp only [hc, if_true, hwl, hmode]
          by_cases hex : wfs.existsNode (dirname path) = true
          · simp [hex]
          · simp only [hex, Bool.false_eq_true, if_false]
            cases hmk : wfs.makedir (dirname path) true true with
            | error e2 => simp [hmk]
            | ok wfs2 =>
              simp only [hmk]
              rw [MultiFS.super_open]
              simp only [hmode, if_true,
                writeLayer_updateLayer m i wfs wfs2 hwl]
              cases hop2 : wfs2.openWrite path with
              | error e3 =>
                simp [hop2, updateLayer_getElem_ne m i wfs2 j hj]
              | ok cw3 =>
                simp [hop2, updateLayer_getElem_ne _ i cw3.2 j hj,
                  updateLayer_getElem_ne m i wfs2 j hj]
        · simp [hc]
    · rw [MultiFS.makedir]
      simp only [hwl]
      cases hmk : wfs.makedir path recursive allow_recreate with
      | ok wfs2 => simp [hmk, updateLayer_getElem_ne m i wfs2 j hj]
      | error e => simp [hmk]
    · rw [MultiFS.remove]
      simp only [hwl]
      cases hrm : wfs.remove path with
      | ok wfs2 => simp [hrm, updateLayer_getElem_ne m i wfs2 j hj]
      | error e => simp [hrm]
    · rw [MultiFS.setcontents]
      simp only [hwl]
      cases hsc : wfs.setcontents path c with
      | ok wfs2 => simp [hsc, updateLayer_getElem_ne m i wfs2 j hj]
      | error e =>
        simp only [hsc]
        by_cases hc : caughtByAutocreate e = true
        · simp only [hc, if_true]
          by_cases hex : wfs.existsNode (dirname path) = true
          · simp [hex]
          · simp only [hex, Bool.false_eq_true, if_false]
            cases hmk : wfs.makedir (dirname path) true true with
            | error e2 => simp [hmk]
            | ok wfs2 =>
              simp only [hmk]
              cases hsc2 : wfs2.setcontents path c with
              | ok wfs3 => simp [hsc2, updateLayer_getElem_ne m i wfs3 j hj]
              | error e3 => simp [hsc2, updateLayer_getElem_ne m i wfs2 j hj]
        · simp [hc]

/-- Witness for C7: a two layer filesystem with the write layer at
index 0; the makedir lands on layer 0 and leaves layer 1 unchanged, and
the same filesystem with no write layer fails every write operation. -/
theorem c7_write_ops_use_write_layer_only_witness :
    isWriteMode "w" = true ∧
    ((MFS.mk [LFS.mk [] [], LFS.mk [("f", 1)] []] none).writeLayer = none →
      MultiFS.openOp (MFS.mk [LFS.mk [] [], LFS.mk [("f", 1)] []] none) "d/f" "w" =
        (Except.error FsErr.operationFailed,
          MFS.mk [LFS.mk [] [], LFS.mk [("f", 1)] []] none) ∧
      MultiFS.makedir (MFS.mk [LFS.mk [] [], LFS.mk [("f", 1)] []] none) "d/f" true true =
        (Except.error FsErr.operationFailed,
          MFS.mk [LFS.mk [] [], LFS.mk [("f", 1)] []] none) ∧
      MultiFS.remove (MFS.mk [LFS.mk [] [], LFS.mk [("f", 1)] []] none) "d/f" =
        (Except.error FsErr.operationFailed,
          MFS.mk [LFS.mk [] [], LFS.mk [("f", 1)] []] none) ∧
      MultiFS.setcontents (MFS.mk [LFS.mk [] [], LFS.mk [("f", 1)] []] none) "d/f" 9 =
        (Except.error FsErr.operationFailed,
          MFS.mk [LFS.mk [] [], LFS.mk [("f", 1)] []] none)) ∧
    (∀ i wfs,
      (MFS.mk [LFS.mk [] [], LFS.mk [("f", 1)] []] none).writeLayer = some (i, wfs) →
      ∀ j, j ≠ i →
      (MultiFS.openOp (MFS.mk [LFS.mk [] [], LFS.mk [("f", 1)] []] none)
        "d/f" "w").2.fs_sequence[j]? =
        (MFS.mk [LFS.mk [] [], LFS.mk [("f", 1)] []] none).fs_sequence[j]? ∧
      (MultiFS.makedir (MFS.mk [LFS.mk [] [], LFS.mk [("f", 1)] []] none)
        "d/f" true true).2.fs_sequence[j]? =
        (MFS.mk [LFS.mk [] [], LFS.mk [("f", 1)] []] none).fs_sequence[j]? ∧
      (MultiFS.remove (MFS.mk [LFS.mk [] [], LFS.mk [("f", 1)] []] none)
        "d/f").2.fs_sequence[j]? =
        (MFS.mk [LFS.mk [] [], LFS.mk [("f", 1)] []] none).fs_sequence[j]? ∧
      (MultiFS.setcontents (MFS.mk [LFS.mk [] [], LFS.mk [("f", 1)] []] none)
        "d/f" 9).2.fs_sequence[j]? =
        (MFS.mk [LFS.mk [] [], LFS.mk [("f", 1)] []] none).fs_sequence[j]?) :=
  ⟨rfl,
    (c7_write_ops_use_write_layer_only
      (MFS.mk [LFS.mk [] [], LFS.mk [("f", 1)] []] none) "d/f" "w" 9 true true rfl).1,
    (c7_write_ops_use_write_layer_only
      (MFS.mk [LFS.mk [] [], LFS.mk [("f", 1)] []] none) "d/f" "w" 9 true true rfl).2⟩

/-- C8: when a write-mode open or a setcontents fails on the write
layer with a caught error and the parent directory of the path is
missing there, MultiFS creates that directory on the write layer and
retries the same operation exactly once, propagating the retried
result — including a second failure — unchanged; when the parent
directory already existed on the write layer, the original error
propagates unchanged; a successful first attempt is never retried. -/
theorem c8_missing_parent_created_and_retried_once (m : MFS) (path mode : String)
    (c : Content) (i : Nat) (wfs : LFS)
    (hwl : m.writeLayer = some (i, wfs)) (hmode : isWriteMode mode = true) :
    (∀ e, wfs.openWrite path = Except.error e →
      caughtByAutocreate e = true →
      ((wfs.existsNode (dirname path) = false →
        ∃ wfs2, wfs.makedir (dirname path) true true = Except.ok wfs2 ∧
          MultiFS.openOp m path mode =
            MultiFS.super_open (m.updateLayer i wfs2) path mode) ∧
       (wfs.existsNode (dirname path) = true →
        MultiFS.openOp m path mode = (Except.error e, m)))) ∧
    (∀ cw, wfs.openWrite path = Except.ok cw →
      MultiFS.openOp m path mode = (Except.ok cw.1, m.updateLayer i cw.2)) ∧
    (∀ e, wfs.setcontents path c = Except.error e →
      caughtByAutocreate e = true →
      ((wfs.existsNode (dirname path) = false →
        ∃ wfs2, wfs.makedir (dirname path) true true = Except.ok wfs2 ∧
          (∀ wfs3, wfs2.setcontents path c = Except.ok wfs3 →
            MultiFS.setcontents m path c = (Except.ok (), m.updateLayer i wfs3)) ∧
          (∀ e3, wfs2.setcontents path c = Except.error e3 →
            MultiFS.setcontents m path c = (Except.error e3, m.updateLayer i wfs2))) ∧
       (wfs.existsNode (dirname path) = true →
        MultiFS.setcontents m path c = (Except.error e, m)))) := by
  refine ⟨?_, ?_, ?_⟩
  · intro e hop hc
    constructor
    · intro hex
      have hdirfalse : wfs.hasDir (dirname path) = false := by
        rw [LFS.existsNode] at hex
        exact (Bool.or_eq_false_iff.mp hex).2
      refine ⟨{ wfs with dirs := makedirRecDirs wfs.dirs (dirname path) }, ?_, ?_⟩
      · rw [LFS.makedir]
        simp [hdirfalse]
      · rw [MultiFS.openOp, MultiFS.super_open]
        simp only [hmode, if_true, hwl, hop, hc, hex]
        rw [LFS.makedir]
        simp [hdirfalse]
    · intro hex
      rw [MultiFS.openOp, MultiFS.super_open]
      simp only [hmode, if_true, hwl, hop, hc, hex]
  · intro cw hop
    rw [MultiFS.openOp, MultiFS.super_open]
    simp only [hmode, if_true, hwl, hop]
  · intro e hsc hc
    constructor
    · intro hex
      have hdirfalse : wfs.hasDir (dirname path) = false := by
        rw [LFS.existsNode] at hex
        exact (Bool.or_eq_false_iff.mp hex).2
      refine ⟨{ wfs with dirs := makedirRecDirs wfs.dirs (dirname path) }, ?_, ?_, ?_⟩
      · rw [LFS.makedir]
        simp [hdirfalse]
      · intro wfs3 hsc2
        rw [MultiFS.setcontents]
        simp only [hwl, hsc, hc, hex]
        rw [LFS.makedir]
        simp [hdirfalse, hsc2]
      · intro e3 hsc2
        rw [MultiFS.setcontents]
        simp only [hwl, hsc, hc, hex]
        rw [LFS.makedir]
        simp [hdirfalse, hsc2]
    · intro hex
      rw [MultiFS.setcontents]
      simp only [hwl, hsc, hc, hex]
      simp

/-- Witness for C8: one empty write layer; opening d/f for writing
fails with a missing parent directory, which is created and the open
retried. -/
theorem c8_missing_parent_created_and_retried_once_witness :
    (MFS.mk [LFS.mk [] []] (some 0)).writeLayer = some (0, LFS.mk [] []) ∧
    isWriteMode "w" = true ∧
    ((∀ e, (LFS.mk [] []).openWrite "d/f" = Except.error e →
      caughtByAutocreate e = true →
      (((LFS.mk [] []).existsNode (dirname "d/f") = false →
        ∃ wfs2, (LFS.mk [] []).makedir (dirname "d/f") true true = Except.ok wfs2 ∧
          MultiFS.openOp (MFS.mk [LFS.mk [] []] (some 0)) "d/f" "w" =
            MultiFS.super_open ((MFS.mk [LFS.mk [] []] (some 0)).updateLayer 0 wfs2)
              "d/f" "w") ∧
       ((LFS.mk [] []).existsNode (dirname "d/f") = true →
        MultiFS.openOp (MFS.mk [LFS.mk [] []] (some 0)) "d/f" "w" =
          (Except.error e, MFS.mk [LFS.mk [] []] (some 0))))) ∧
    (∀ cw, (LFS.mk [] []).openWrite "d/f" = Except.ok cw →
      MultiFS.openOp (MFS.mk [LFS.mk [] []] (some 0)) "d/f" "w" =
        (Except.ok cw.1, (MFS.mk [LFS.mk [] []] (some 0)).updateLayer 0 cw.2)) ∧
    (∀ e, (LFS.mk [] []).setcontents "d/f" 9 = Except.error e →
      caughtByAutocreate e = true →
      (((LFS.mk [] []).existsNode (dirname "d/f") = false →
        ∃ wfs2, (LFS.mk [] []).makedir (dirname "d/f") true true = Except.ok wfs2 ∧
          (∀ wfs3, wfs2.setcontents "d/f" 9 = Except.ok wfs3 →
            MultiFS.setcontents (MFS.mk [LFS.mk [] []] (some 0)) "d/f" 9 =
              (Except.ok (), (MFS.mk [LFS.mk [] []] (some 0)).updateLayer 0 wfs3)) ∧
          (∀ e3, wfs2.setcontents "d/f" 9 = Except.error e3 →
            MultiFS.setcontents (MFS.mk [LFS.mk [] []] (some 0)) "d/f" 9 =
              (Except.error e3, (MFS.mk [LFS.mk [] []] (some 0)).updateLayer 0 wfs2))) ∧
       ((LFS.mk [] []).existsNode (dirname "d/f") = true →
        MultiFS.setcontents (MFS.mk [LFS.mk [] []] (some 0)) "d/f" 9 =
          (Except.error e, MFS.mk [LFS.mk [] []] (some 0)))))) :=
  ⟨rfl, rfl,
    c8_missing_parent_created_and_retried_once (MFS.mk [LFS.mk [] []] (some 0))
      "d/f" "w" 9 0 (LFS.mk [] []) rfl rfl⟩

/-- The upload loop never makes more copy attempts than it has
remaining iterations. -/
theorem upload_from_attempts_le (oracle : Nat → UploadAttempt) :
    ∀ rem x made, (upload_file_from oracle x rem made).1.attempts ≤ x + rem := by
  intro rem
  induction rem with
  | zero =>
    intro x made
    simp [upload_file_from, UploadOutcome.attempts]
  | succ rem ih =>
    intro x made
    rcases hcopy : (oracle x).copy with _ | _ | _ | _
    · simp [upload_file_from, hcopy, UploadOutcome.attempts]
    · simp only [upload_file_from, hcopy]
      have h2 := ih (x + 1) (made + 1)
      omega
    · by_cases hse : (oracle x).sourceExists = true
      · simp only [upload_file_from, hcopy, hse, if_true]
        have h2 := ih (x + 1) (made + 1)
        omega
      · simp only [Bool.not_eq_true] at hse
        by_cases hbs : (oracle x).badSymlink = true
        · simp [upload_file_from, hcopy, hse, hbs, UploadOutcome.attempts]
        · simp only [Bool.not_eq_true] at hbs
          simp only [upload_file_from, hcopy, hse, hbs, Bool.false_eq_true, if_false]
          have h2 := ih (x + 1) made
          omega
    · simp [upload_file_from, hcopy, UploadOutcome.attempts]

/-- When every iteration asks for another attempt, the loop exhausts
its iteration budget. -/
theorem upload_from_exhausts (oracle : Nat → UploadAttempt) :
    ∀ rem x made, (∀ y, y < rem → UploadAttempt.isRetry (oracle (x + y)) = true) →
      (upload_file_from oracle x rem made).1 = UploadOutcome.exhausted (x + rem) := by
  intro rem
  induction rem with
  | zero =>
    intro x made _
    simp [upload_file_from]
  | succ rem ih =>
    intro x made h
    have h0 : UploadAttempt.isRetry (oracle x) = true := by
      simpa using h 0 (by omega)
    have hshift : ∀ y, y < rem → UploadAttempt.isRetry (oracle (x + 1 + y)) = true := by
      intro y hy
      have := h (y + 1) (by omega)
      simpa [show x + (y + 1) = x + 1 + y by omega] using this
    rcases hcopy : (oracle x).copy with _ | _ | _ | _
    · rw [UploadAttempt.isRetry, hcopy] at h0
      simp at h0
    · simp only [upload_file_from, hcopy]
      rw [ih (x + 1) (made + 1) hshift]
      congr 1
      omega
    · rw [UploadAttempt.isRetry, hcopy] at h0
      simp at h0
      by_cases hse : (oracle x).sourceExists = true
      · simp only [upload_file_from, hcopy, hse, if_true]
        rw [ih (x + 1) (made + 1) hshift]
        congr 1
        omega
      · simp only [Bool.not_eq_true] at hse
        have hbs : (oracle x).badSymlink = false := by
          rw [hse] at h0
          simpa using h0
        simp only [upload_file_from, hcopy, hse, hbs, Bool.false_eq_true, if_false]
        rw [ih (x + 1) made hshift]
        congr 1
        omega
    · rw [UploadAttempt.isRetry, hcopy] at h0
      simp at h0

/-- The first successful copy ends the loop with that attempt count. -/
theorem upload_from_first_success (oracle : Nat → UploadAttempt) :
    ∀ rem x made k, k < rem →
      (∀ y, y < k → UploadAttempt.isRetry (oracle (x + y)) = true) →
      (oracle (x + k)).copy = CopyOutcome.ok →
      (upload_file_from oracle x rem made).1 = UploadOutcome.uploaded (x + k + 1) := by
  intro rem
  induction rem with
  | zero =>
    intro x made k hk
    omega
  | succ rem ih =>
    intro x made k hk hpre hok
    cases k with
    | zero =>
      rw [Nat.add_zero] at hok
      simp [upload_file_from, hok]
    | succ k =>
      have h0 : UploadAttempt.isRetry (oracle x) = true := by
        simpa using hpre 0 (by omega)
      have hshift : ∀ y, y < k → UploadAttempt.isRetry (oracle (x + 1 + y)) = true := by
        intro y hy
        have := hpre (y + 1) (by omega)
        simpa [show x + (y + 1) = x + 1 + y by omega] using this
      have hok2 : (oracle (x + 1 + k)).copy = CopyOutcome.ok := by
        rw [show x + 1 + k = x + (k + 1) by omega]
        exact hok
      have hgoal : x + 1 + k + 1 = x + (k + 1) + 1 := by omega
      rcases hcopy : (oracle x).copy with _ | _ | _ | _
      · rw [UploadAttempt.isRetry, hcopy] at h0
        simp at h0
      · simp only [upload_file_from, hcopy]
        rw [ih (x + 1) (made + 1) k (by omega) hshift hok2]
        congr 1
      · rw [UploadAttempt.isRetry, hcopy] at h0
        simp at h0
        by_cases hse : (oracle x).sourceExists = true
        · simp only [upload_file_from, hcopy, hse, if_true]
          rw [ih (x + 1) (made + 1) k (by omega) hshift hok2]
          congr 1
        · simp only [Bool.not_eq_true] at hse
          have hbs : (oracle x).badSymlink = false := by
            rw [hse] at h0
            simpa using h0
          simp only [upload_file_from, hcopy, hse, hbs, Bool.false_eq_true, if_false]
          rw [ih (x + 1) made k (by omega) hshift hok2]
          congr 1
      · rw [UploadAttempt.isRetry, hcopy] at h0
        simp at h0

/-- C9: upload_file attempts the copy at most 100 times; a
parent-directory failure (or a not-found failure while the source
still exists) triggers a target makedir repair and exactly one more
iteration; exhausting all 100 attempts raises the per-file error that
names the failing path, while a first success at attempt k returns
normally; and only uploads carry this retry loop: delete_file is a
single underlying remove call and skip_file performs no filesystem
operation. -/
theorem c9_upload_retry_bounded_per_file (path : String) (oracle : Nat → UploadAttempt) :
    (upload_file_from oracle 0 100 0).1.attempts ≤ 100 ∧
    ((∀ y, y < 100 → UploadAttempt.isRetry (oracle y) = true) →
      (upload_file path oracle).1 = Except.error (FsErr.uploadError path)) ∧
    (∀ k, k < 100 → (∀ y, y < k → UploadAttempt.isRetry (oracle y) = true) →
      (oracle k).copy = CopyOutcome.ok →
      (upload_file path oracle).1 = Except.ok (k + 1)) ∧
    (∀ x rem made, (oracle x).copy = CopyOutcome.parentDirMissing →
      upload_file_from oracle x (rem + 1) made =
        upload_file_from oracle (x + 1) rem (made + 1)) ∧
    (∀ x rem made, (oracle x).copy = CopyOutcome.resourceNotFound →
      (oracle x).sourceExists = true →
      upload_file_from oracle x (rem + 1) made =
        upload_file_from oracle (x + 1) rem (made + 1)) ∧
    (∀ files p, delete_file files p = fs_remove files p) ∧
    (∀ p, skip_file p = Except.ok ()) := by
  refine ⟨?_, ?_, ?_, ?_, ?_, fun files p => rfl, fun p => rfl⟩
  · simpa using upload_from_attempts_le oracle 100 0 0
  · intro h
    have hex := upload_from_exhausts oracle 100 0 0 (by simpa using h)
    rw [upload_file]
    rcases hloop : upload_file_from oracle 0 100 0 with ⟨out, made⟩
    rw [hloop] at hex
    simp only at hex
    rw [hex]
  · intro k hk hpre hok
    have hup := upload_from_first_success oracle 100 0 0 k hk (by simpa using hpre)
      (by simpa using hok)
    rw [upload_file]
    rcases hloop : upload_file_from oracle 0 100 0 with ⟨out, made⟩
    rw [hloop] at hup
    simp only at hup
    rw [hup]
    simp
  · intro x rem made hcopy
    simp [upload_file_from, hcopy]
  · intro x rem made hcopy hse
    simp [upload_file_from, hcopy, hse]

/-- Witness for C9 with the always-failing oracle: all 100 attempts are
made and the per-file error is raised. -/
theorem c9_upload_retry_bounded_per_file_witness :
    ((upload_file_from (fun _ => UploadAttempt.mk CopyOutcome.parentDirMissing true false)
        0 100 0).1.attempts ≤ 100) ∧
    ((∀ y, y < 100 →
        UploadAttempt.isRetry
          ((fun _ => UploadAttempt.mk CopyOutcome.parentDirMissing true false) y) = true) →
      (upload_file "f.txt"
        (fun _ => UploadAttempt.mk CopyOutcome.parentDirMissing true false)).1 =
        Except.error (FsErr.uploadError "f.txt")) ∧
    (upload_file "f.txt"
      (fun _ => UploadAttempt.mk CopyOutcome.parentDirMissing true false)).1 =
      Except.error (FsErr.uploadError "f.txt") :=
  ⟨(c9_upload_retry_bounded_per_file "f.txt"
      (fun _ => UploadAttempt.mk CopyOutcome.parentDirMissing true false)).1,
   (c9_upload_retry_bounded_per_file "f.txt"
      (fun _ => UploadAttempt.mk CopyOutcome.parentDirMissing true false)).2.1,
   (c9_upload_retry_bounded_per_file "f.txt"
      (fun _ => UploadAttempt.mk CopyOutcome.parentDirMissing true false)).2.1
      (fun y hy => rfl)⟩

/-- Soundness of the merge: on sorted inputs, every emitted action is
the one the specification assigns to its path. -/
theorem get_sync_actions_sound : ∀ o t : List WalkNode, PathSorted o → PathSorted t →
    ∀ a ∈ get_sync_actions_total o t, specActionAt o t a.path = some a := by
  intro o t
  induction o, t using get_sync_actions_total.induct with
  | case1 =>
    intro _ _ a ha
    simp [get_sync_actions_total] at ha
  | case2 tfile ts ih =>
    intro ho ht a ha
    have htb := (List.pairwise_cons.mp ht).1
    have hts := (List.pairwise_cons.mp ht).2
    simp only [get_sync_actions_total] at ha
    rcases List.mem_cons.mp ha with h | h
    · subst h
      simp only [SyncAction.path]
      rw [specActionAt, findNode_nil, findNode_cons, if_pos rfl]
    · have hgt : tfile.path < a.path := by
        refine rec_path_gt [] ts a tfile.path (by simp) ?_ h
        intro q hq
        rcases List.mem_map.mp hq with ⟨b, hb, hbp⟩
        subst hbp
        exact htb b hb
      rw [specActionAt_cons_right tfile [] ts a.path (ne_of_lt hgt)]
      exact ih (by simp [PathSorted]) hts a h
  | case3 sfile ss ih =>
    intro ho ht a ha
    have hob := (List.pairwise_cons.mp ho).1
    have hos := (List.pairwise_cons.mp ho).2
    simp only [get_sync_actions_total] at ha
    rcases List.mem_cons.mp ha with h | h
    · subst h
      simp only [SyncAction.path]
      rw [specActionAt, findNode_nil, findNode_cons, if_pos rfl]
    · have hgt : sfile.path < a.path := by
        refine rec_path_gt ss [] a sfile.path ?_ (by simp) h
        intro q hq
        rcases List.mem_map.mp hq with ⟨b, hb, hbp⟩
        subst hbp
        exact hob b hb
      rw [specActionAt_cons_left sfile ss [] a.path (ne_of_lt hgt)]
      exact ih hos (by simp [PathSorted]) a h
  | case4 sfile ss tfile ts heq ih =>
    intro ho ht a ha
    have hob := (List.pairwise_cons.mp ho).1
    have hos := (List.pairwise_cons.mp ho).2
    have htb := (List.pairwise_cons.mp ht).1
    have hts := (List.pairwise_cons.mp ht).2
    simp only [get_sync_actions_total, if_pos heq] at ha
    rcases List.mem_cons.mp ha with h | h
    · subst h
      by_cases hsz : sfile.size = tfile.size
      · simp only [hsz, if_true, SyncAction.path]
        rw [specActionAt, findNode_cons, if_pos rfl, findNode_cons, if_pos heq.symm]
        simp [hsz]
      · simp only [hsz, if_false, SyncAction.path]
        rw [specActionAt, findNode_cons, if_pos rfl, findNode_cons, if_pos heq.symm]
        simp [hsz]
    · have hgs : sfile.path < a.path := by
        refine rec_path_gt ss ts a sfile.path ?_ ?_ h
        · intro q hq
          rcases List.mem_map.mp hq with ⟨b, hb, hbp⟩
          subst hbp
          exact hob b hb
        · intro q hq
          rcases List.mem_map.mp hq with ⟨b, hb, hbp⟩
          subst hbp
          rw [heq]
          exact htb b hb
      have hgt : tfile.path < a.path := heq ▸ hgs
      rw [specActionAt_cons_left sfile ss (tfile :: ts) a.path (ne_of_lt hgs),
        specActionAt_cons_right tfile ss ts a.path (ne_of_lt hgt)]
      exact ih hos hts a h
  | case5 sfile ss tfile ts hne hgt ih =>
    intro ho ht a ha
    have hob := (List.pairwise_cons.mp ho).1
    have htb := (List.pairwise_cons.mp ht).1
    have hts := (List.pairwise_cons.mp ht).2
    have hallgt : ∀ b ∈ sfile :: ss, tfile.path < b.path := by
      intro b hb
      rcases List.mem_cons.mp hb with h | h
      · rw [h]
        exact hgt
      · exact lt_trans hgt (hob b h)
    simp only [get_sync_actions_total, if_neg hne, if_pos hgt] at ha
    rcases List.mem_cons.mp ha with h | h
    · subst h
      simp only [SyncAction.path]
      rw [specActionAt, findNode_none_of_all_gt _ _ hallgt, findNode_cons, if_pos rfl]
    · have hgta : tfile.path < a.path := by
        refine rec_path_gt (sfile :: ss) ts a tfile.path ?_ ?_ h
        · intro q hq
          rcases List.mem_map.mp hq with ⟨b, hb, hbp⟩
          subst hbp
          exact hallgt b hb
        · intro q hq
          rcases List.mem_map.mp hq with ⟨b, hb, hbp⟩
          subst hbp
          exact htb b hb
      rw [specActionAt_cons_right tfile (sfile :: ss) ts a.path (ne_of_lt hgta)]
      exact ih ho hts a h
  | case6 sfile ss tfile ts hne hngt ih =>
    intro ho ht a ha
    have hlt : sfile.path < tfile.path := by
      rcases lt_trichotomy sfile.path tfile.path with h | h | h
      · exact h
      · exact absurd h hne
      · exact absurd h hngt
    have hob := (List.pairwise_cons.mp ho).1
    have hos := (List.pairwise_cons.mp ho).2
    have htb := (List.pairwise_cons.mp ht).1
    have hallgt : ∀ b ∈ tfile :: ts, sfile.path < b.path := by
      intro b hb
      rcases List.mem_cons.mp hb with h | h
      · rw [h]
        exact hlt
      · exact lt_trans hlt (htb b h)
    simp only [get_sync_actions_total, if_neg hne, if_neg hngt] at ha
    rcases List.mem_cons.mp ha with h | h
    · subst h
      simp only [SyncAction.path]
      rw [specActionAt, findNode_cons, if_pos rfl, findNode_none_of_all_gt _ _ hallgt]
    · have hgsa : sfile.path < a.path := by
        refine rec_path_gt ss (tfile :: ts) a sfile.path ?_ ?_ h
        · intro q hq
          rcases List.mem_map.mp hq with ⟨b, hb, hbp⟩
          subst hbp
          exact hob b hb
        · intro q hq
          rcases List.mem_map.mp hq with ⟨b, hb, hbp⟩
          subst hbp
          exact hallgt b hb
      rw [specActionAt_cons_left sfile ss (tfile :: ts) a.path (ne_of_lt hgsa)]
      exact ih hos ht a h

/-- Completeness of the merge: on sorted inputs, every action the
specification assigns to some path is emitted. -/
theorem get_sync_actions_complete : ∀ o t : List WalkNode, PathSorted o → PathSorted t →
    ∀ p a, specActionAt o t p = some a → a ∈ get_sync_actions_total o t := by
  intro o t
  induction o, t using get_sync_actions_total.induct with
  | case1 =>
    intro _ _ p a h
    rw [specActionAt, findNode_nil] at h
    simp at h
  | case2 tfile ts ih =>
    intro ho ht p a hspec
    have hts := (List.pairwise_cons.mp ht).2
    simp only [get_sync_actions_total]
    by_cases hpa : tfile.path = p
    · rw [specActionAt, findNode_nil, findNode_cons, if_pos hpa] at hspec
      simp only [Option.some.injEq] at hspec
      rw [← hspec, ← hpa]
      exact List.mem_cons_self _ _
    · rw [specActionAt_cons_right tfile [] ts p hpa] at hspec
      exact List.mem_cons_of_mem _ (ih (by simp [PathSorted]) hts p a hspec)
  | case3 sfile ss ih =>
    intro ho ht p a hspec
    have hos := (List.pairwise_cons.mp ho).2
    simp only [get_sync_actions_total]
    by_cases hpa : sfile.path = p
    · rw [specActionAt, findNode_nil, findNode_cons, if_pos hpa] at hspec
      simp only [Option.some.injEq] at hspec
      rw [← hspec, ← hpa]
      exact List.mem_cons_self _ _
    · rw [specActionAt_cons_left sfile ss [] p hpa] at hspec
      exact List.mem_cons_of_mem _ (ih hos (by simp [PathSorted]) p a hspec)
  | case4 sfile ss tfile ts heq ih =>
    intro ho ht p a hspec
    have hos := (List.pairwise_cons.mp ho).2
    have hts := (List.pairwise_cons.mp ht).2
    simp only [get_sync_actions_total, if_pos heq]
    by_cases hpa : sfile.path = p
    · rw [specActionAt, findNode_cons, if_pos hpa, findNode_cons,
        if_pos (heq.symm.trans hpa)] at hspec
      simp only [Option.some.injEq] at hspec
      rw [← hspec, ← hpa]
      by_cases hsz : sfile.size = tfile.size
      · simp only [hsz, if_true]
        exact List.mem_cons_self _ _
      · simp only [hsz, if_false]
        exact List.mem_cons_self _ _
    · have hpt : tfile.path ≠ p := fun h => hpa (heq.trans h)
      rw [specActionAt_cons_left sfile ss (tfile :: ts) p hpa,
        specActionAt_cons_right tfile ss ts p hpt] at hspec
      exact List.mem_cons_of_mem _ (ih hos hts p a hspec)
  | case5 sfile ss tfile ts hne hgt ih =>
    intro ho ht p a hspec
    have hob := (List.pairwise_cons.mp ho).1
    have hts := (List.pairwise_cons.mp ht).2
    simp only [get_sync_actions_total, if_neg hne, if_pos hgt]
    by_cases hpt : tfile.path = p
    · have hallgt : ∀ b ∈ sfile :: ss, p < b.path := by
        intro b hb
        rcases List.mem_cons.mp hb with h | h
        · rw [h, ← hpt]
          exact hgt
        · rw [← hpt]
          exact lt_trans hgt (hob b h)
      rw [specActionAt, findNode_none_of_all_gt _ _ hallgt, findNode_cons,
        if_pos hpt] at hspec
      simp only [Option.some.injEq] at hspec
      rw [← hspec, ← hpt]
      exact List.mem_cons_self _ _
    · rw [specActionAt_cons_right tfile (sfile :: ss) ts p hpt] at hspec
      exact List.mem_cons_of_mem _ (ih ho hts p a hspec)
  | case6 sfile ss tfile ts hne hngt ih =>
    intro ho ht p a hspec
    have hlt : sfile.path < tfile.path := by
      rcases lt_trichotomy sfile.path tfile.path with h | h | h
      · exact h
      · exact absurd h hne
      · exact absurd h hngt
    have hos := (List.pairwise_cons.mp ho).2
    have htb := (List.pairwise_cons.mp ht).1
    simp only [get_sync_actions_total, if_neg hne, if_neg hngt]
    by_cases hps : sfile.path = p
    · have hallgt : ∀ b ∈ tfile :: ts, p < b.path := by
        intro b hb
        rcases List.mem_cons.mp hb with h | h
        · rw [h, ← hps]
          exact hlt
        · rw [← hps]
          exact lt_trans hlt (htb b h)
      rw [specActionAt, findNode_cons, if_pos hps,
        findNode_none_of_all_gt _ _ hallgt] at hspec
      simp only [Option.some.injEq] at hspec
      rw [← hspec, ← hps]
      exact List.mem_cons_self _ _
    · rw [specActionAt_cons_left sfile ss (tfile :: ts) p hps] at hspec
      exact List.mem_cons_of_mem _ (ih hos ht p a hspec)

/-- On sorted inputs, membership in the merge output is exactly the
specification assignment. -/
theorem get_sync_actions_mem_iff (o t : List WalkNode) (ho : PathSorted o)
    (ht : PathSorted t) (a : SyncAction) :
    a ∈ get_sync_actions_total o t ↔ specActionAt o t a.path = some a :=
  ⟨fun h => get_sync_actions_sound o t ho ht a h,
   fun h => get_sync_actions_complete o t ho ht a.path a h⟩

/-- The specification assigns Upload to exactly the source-only paths
and the paths present on both sides with differing sizes. -/
theorem spec_upload_iff (o t : List WalkNode) (ho : PathSorted o) (ht : PathSorted t)
    (p : String) :
    specActionAt o t p = some (SyncAction.upload p) ↔
      ((p ∈ o.map WalkNode.path ∧ p ∉ t.map WalkNode.path) ∨
        (∃ s ∈ o, ∃ u ∈ t, s.path = p ∧ u.path = p ∧ s.size ≠ u.size)) := by
  rw [specActionAt]
  rcases hfo : findNode o p with _ | s
  · have honone := (findNode_eq_none_iff o p).mp hfo
    rcases hft : findNode t p with _ | u
    · refine iff_of_false (by simp) ?_
      rintro (⟨hmem, -⟩ | ⟨s, hs, u2, hu2, hsp, -, -⟩)
      · exact honone hmem
      · exact honone (List.mem_map.mpr ⟨s, hs, hsp⟩)
    · refine iff_of_false (by simp) ?_
      rintro (⟨hmem, -⟩ | ⟨s, hs, u2, hu2, hsp, -, -⟩)
      · exact honone hmem
      · exact honone (List.mem_map.mpr ⟨s, hs, hsp⟩)
  · obtain ⟨hsmem, hsp⟩ := findNode_path o p s hfo
    rcases hft : findNode t p with _ | u
    · exact iff_of_true rfl (Or.inl ⟨List.mem_map.mpr ⟨s, hsmem, hsp⟩,
        (findNode_eq_none_iff t p).mp hft⟩)
    · obtain ⟨humem, hup⟩ := findNode_path t p u hft
      by_cases hsz : s.size = u.size
      · refine iff_of_false (by simp [hsz]) ?_
        rintro (⟨-, habs⟩ | ⟨s2, hs2, u2, hu2, hs2p, hu2p, hsz2⟩)
        · exact habs (List.mem_map.mpr ⟨u, humem, hup⟩)
        · have h1 : findNode o p = some s2 := findNode_of_mem p o ho s2 hs2 hs2p
          have h2 : findNode t p = some u2 := findNode_of_mem p t ht u2 hu2 hu2p
          rw [hfo] at h1
          rw [hft] at h2
          simp only [Option.some.injEq] at h1 h2
          subst h1
          subst h2
          exact hsz2 hsz
      · exact iff_of_true (by simp [hsz])
          (Or.inr ⟨s, hsmem, u, humem, hsp, hup, hsz⟩)

/-- The specification assigns Skip to exactly the paths present on both
sides with equal sizes. -/
theorem spec_skip_iff (o t : List WalkNode) (ho : PathSorted o) (ht : PathSorted t)
    (p : String) :
    specActionAt o t p = some (SyncAction.skip p) ↔
      (∃ s ∈ o, ∃ u ∈ t, s.path = p ∧ u.path = p ∧ s.size = u.size) := by
  rw [specActionAt]
  rcases hfo : findNode o p with _ | s
  · have honone := (findNode_eq_none_iff o p).mp hfo
    rcases hft : findNode t p with _ | u
    · refine iff_of_false (by simp) ?_
      rintro ⟨s, hs, u2, hu2, hsp, -, -⟩
      exact honone (List.mem_map.mpr ⟨s, hs, hsp⟩)
    · refine iff_of_false (by simp) ?_
      rintro ⟨s, hs, u2, hu2, hsp, -, -⟩
      exact honone (List.mem_map.mpr ⟨s, hs, hsp⟩)
  · obtain ⟨hsmem, hsp⟩ := findNode_path o p s hfo
    rcases hft : findNode t p with _ | u
    · have htnone := (findNode_eq_none_iff t p).mp hft
      refine iff_of_false (by simp) ?_
      rintro ⟨s2, hs2, u2, hu2, -, hu2p, -⟩
      exact htnone (List.mem_map.mpr ⟨u2, hu2, hu2p⟩)
    · obtain ⟨humem, hup⟩ := findNode_path t p u hft
      by_cases hsz : s.size = u.size
      · exact iff_of_true (by simp [hsz])
          ⟨s, hsmem, u, humem, hsp, hup, hsz⟩
      · refine iff_of_false (by simp [hsz]) ?_
        rintro ⟨s2, hs2, u2, hu2, hs2p, hu2p, hsz2⟩
        have h1 : findNode o p = some s2 := findNode_of_mem p o ho s2 hs2 hs2p
        have h2 : findNode t p = some u2 := findNode_of_mem p t ht u2 hu2 hu2p
        rw [hfo] at h1
        rw [hft] at h2
        simp only [Option.some.injEq] at h1 h2
        subst h1
        subst h2
        exact hsz hsz2

/-- The specification assigns Delete to exactly the target-only
paths. -/
theorem spec_delete_iff (o t : List WalkNode) (p : String) :
    specActionAt o t p = some (SyncAction.delete p) ↔
      (p ∈ t.map WalkNode.path ∧ p ∉ o.map WalkNode.path) := by
  rw [specActionAt]
  rcases hfo : findNode o p with _ | s
  · have honone := (findNode_eq_none_iff o p).mp hfo
    rcases hft : findNode t p with _ | u
    · refine iff_of_false (by simp) ?_
      rintro ⟨hmem, -⟩
      exact (findNode_eq_none_iff t p).mp hft hmem
    · obtain ⟨humem, hup⟩ := findNode_path t p u hft
      exact iff_of_true rfl ⟨List.mem_map.mpr ⟨u, humem, hup⟩, honone⟩
  · obtain ⟨hsmem, hsp⟩ := findNode_path o p s hfo
    have hmem : p ∈ o.map WalkNode.path := List.mem_map.mpr ⟨s, hsmem, hsp⟩
    rcases hft : findNode t p with _ | u
    · refine iff_of_false (by simp) ?_
      rintro ⟨-, habs⟩
      exact habs hmem
    · refine iff_of_false ?_ ?_
      · by_cases hsz : s.size = u.size <;> simp [hsz]
      · rintro ⟨-, habs⟩
        exact habs hmem

/-- C1: on file-only, strictly path-sorted inputs the action stream of
sync_files (the merge, after the delete filter when delete_missing is
false) contains an Upload for exactly the source-only paths and the
paths on both sides with differing size, a Skip for exactly the paths
on both sides with equal size, a Delete (only when delete_missing)
for exactly the target-only paths, and every path appears in at most
one action. -/
theorem c1_sync_actions_exact (delete_missing : Bool) (o t : List WalkNode)
    (ho : PathSorted o) (ht : PathSorted t)
    (hfo : ∀ n ∈ o, n.isdir = false) (hft : ∀ n ∈ t, n.isdir = false) :
    sync_file_actions delete_missing o t =
      Except.ok (sync_actions_total delete_missing o t) ∧
    (∀ p : String,
      (SyncAction.upload p ∈ sync_actions_total delete_missing o t ↔
        ((p ∈ o.map WalkNode.path ∧ p ∉ t.map WalkNode.path) ∨
          (∃ s ∈ o, ∃ u ∈ t, s.path = p ∧ u.path = p ∧ s.size ≠ u.size))) ∧
      (SyncAction.skip p ∈ sync_actions_total delete_missing o t ↔
        (∃ s ∈ o, ∃ u ∈ t, s.path = p ∧ u.path = p ∧ s.size = u.size)) ∧
      (SyncAction.delete p ∈ sync_actions_total delete_missing o t ↔
        (delete_missing = true ∧ p ∈ t.map WalkNode.path ∧ p ∉ o.map WalkNode.path))) ∧
    ((sync_actions_total delete_missing o t).map SyncAction.path).Pairwise (· ≠ ·) := by
  have hsorted := get_sync_actions_sorted o t ho ht
  refine ⟨?_, ?_, ?_⟩
  · rw [sync_file_actions, _get_sync_actions_eq, sync_actions_total]
    cases delete_missing <;> simp [Except.map]
  · intro p
    have hiffU := get_sync_actions_mem_iff o t ho ht (SyncAction.upload p)
    have hiffS := get_sync_actions_mem_iff o t ho ht (SyncAction.skip p)
    have hiffD := get_sync_actions_mem_iff o t ho ht (SyncAction.delete p)
    simp only [SyncAction.path] at hiffU hiffS hiffD
    cases delete_missing
    · simp only [sync_actions_total, Bool.false_eq_true, if_false]
      refine ⟨?_, ?_, ?_⟩
      · rw [List.mem_filter]
        simp only [SyncAction.isDelete, Bool.not_false, and_true]
        rw [hiffU, spec_upload_iff o t ho ht p]
      · rw [List.mem_filter]
        simp only [SyncAction.isDelete, Bool.not_false, and_true]
        rw [hiffS, spec_skip_iff o t ho ht p]
      · rw [List.mem_filter]
        simp [SyncAction.isDelete]
    · simp only [sync_actions_total, if_true]
      refine ⟨?_, ?_, ?_⟩
      · rw [hiffU, spec_upload_iff o t ho ht p]
      · rw [hiffS, spec_skip_iff o t ho ht p]
      · rw [hiffD, spec_delete_iff o t p]
        simp
  · cases delete_missing
    · simp only [sync_actions_total, Bool.false_eq_true, if_false]
      have hbase : ((get_sync_actions_total o t).map SyncAction.path).Pairwise (· ≠ ·) :=
        hsorted.imp (fun h => ne_of_lt h)
      exact hbase.sublist
        (List.Sublist.map SyncAction.path (List.filter_sublist _))
    · simp only [sync_actions_total, if_true]
      exact hsorted.imp (fun h => ne_of_lt h)

/-- Witness for C1 at the specification scenario with delete enabled. -/
theorem c1_sync_actions_exact_witness :
    PathSorted c1Origin ∧ PathSorted c1Target ∧
    (∀ n ∈ c1Origin, n.isdir = false) ∧ (∀ n ∈ c1Target, n.isdir = false) ∧
    (sync_file_actions true c1Origin c1Target =
      Except.ok (sync_actions_total true c1Origin c1Target) ∧
    (∀ p : String,
      (SyncAction.upload p ∈ sync_actions_total true c1Origin c1Target ↔
        ((p ∈ c1Origin.map WalkNode.path ∧ p ∉ c1Target.map WalkNode.path) ∨
          (∃ s ∈ c1Origin, ∃ u ∈ c1Target,
            s.path = p ∧ u.path = p ∧ s.size ≠ u.size))) ∧
      (SyncAction.skip p ∈ sync_actions_total true c1Origin c1Target ↔
        (∃ s ∈ c1Origin, ∃ u ∈ c1Target,
          s.path = p ∧ u.path = p ∧ s.size = u.size)) ∧
      (SyncAction.delete p ∈ sync_actions_total true c1Origin c1Target ↔
        (true = true ∧ p ∈ c1Target.map WalkNode.path ∧
          p ∉ c1Origin.map WalkNode.path))) ∧
    ((sync_actions_total true c1Origin c1Target).map SyncAction.path).Pairwise (· ≠ ·)) := by
  have ho : PathSorted c1Origin := by
    simp [PathSorted, c1Origin, List.pairwise_cons] <;> decide
  have ht : PathSorted c1Target := by
    simp [PathSorted, c1Target, List.pairwise_cons] <;> decide
  have hfo : ∀ n ∈ c1Origin, n.isdir = false := by decide
  have hft : ∀ n ∈ c1Target, n.isdir = false := by decide
  exact ⟨ho, ht, hfo, hft,
    c1_sync_actions_exact true c1Origin c1Target ho ht hfo hft⟩

theorem sanity_example_diff :
    get_sync_actions_total
      [⟨"a.txt", false, 10⟩, ⟨"b.txt", false, 20⟩, ⟨"c.txt", false, 5⟩]
      [⟨"a.txt", false, 10⟩, ⟨"b.txt", false, 99⟩] =
    [SyncAction.skip "a.txt", SyncAction.upload "b.txt", SyncAction.upload "c.txt"] := by
  simp [get_sync_actions_total]
